import Mathlib

/-!
Verification development for the citadel asynchronous job execution engine and
archive-mount lifecycle manager.

The Python source is shallowly embedded in Lean 4.  Conventions used
throughout:

* machine floats are modelled by `ℚ` (all quantities the claims mention are
  exactly representable, and multiplication by powers of two is exact in
  binary floating point, so the rational model agrees with Python on every
  value appearing in the statements below);
* `datetime` values are modelled by `Int` seconds since an epoch;
  `isoformat`/`fromisoformat` are modelled by the decimal rendering of that
  integer and its strict parse — an injective, order-preserving rendering with
  a parse that fails on malformed text, which is exactly the interface the
  code relies on;
* functions that may raise return `Option` (`none` = exception);
* operating-system interaction (process table, mount table, directory
  listings, subprocess exit codes) is supplied through explicit environment
  records, and the system calls a code path performs are collected into an
  `Effect` trace;
* Python truthiness of optional strings/integers is modelled explicitly
  (`none` and `some ""` — resp. `some 0` — are falsy).
-/

namespace Citadel

/-! ## Character and string primitives shared by the embeddings -/

/-- Decimal digit character for a digit value below ten (junk above). -/
def digitChar (d : Nat) : Char :=
  match d with
  | 0 => '0' | 1 => '1' | 2 => '2' | 3 => '3' | 4 => '4'
  | 5 => '5' | 6 => '6' | 7 => '7' | 8 => '8' | _ => '9'

/-- Numeric value of a decimal digit character. -/
def digitVal (c : Char) : Nat := c.toNat - 48

/-- Worker for `natChars`: peel decimal digits into the accumulator.  The
fuel argument only bounds the recursion; `n + 1` steps always suffice. -/
def natCharsAux : Nat → Nat → List Char → List Char
  | 0, _, acc => acc
  | fuel + 1, n, acc =>
      if n < 10 then digitChar n :: acc
      else natCharsAux fuel (n / 10) (digitChar (n % 10) :: acc)

/-- Decimal digit characters of a natural number, most significant first
(the rendering used by Python `str`/`repr` of integers). -/
def natChars (n : Nat) : List Char :=
  natCharsAux (n + 1) n []

/-- Decimal rendering of an integer, with a leading minus sign when negative. -/
def intChars (i : Int) : List Char :=
  if i < 0 then '-' :: natChars i.natAbs else natChars i.natAbs

/-- Value of a run of decimal digit characters, most significant first. -/
def decodeDigits (ds : List Char) : Nat :=
  ds.foldl (fun a c => a * 10 + digitVal c) 0

/-- Strict parse of a decimal integer: optional minus sign followed by a
nonempty run of digits and nothing else.  Models `int(...)`-style parsing
(and the successful/failing behaviour of `datetime.fromisoformat` on the
renderings this development uses for timestamps). -/
def parseIntChars (cs : List Char) : Option Int :=
  match cs with
  | '-' :: rest =>
      if rest ≠ [] ∧ rest.all Char.isDigit then some (-(decodeDigits rest : Int)) else none
  | _ =>
      if cs ≠ [] ∧ cs.all Char.isDigit then some ((decodeDigits cs : Int)) else none

/-- Whitespace in the sense of Python `str.split()` / `str.strip()`
(restricted to the four common characters; the remaining Python whitespace
code points never appear in the texts handled here). -/
def pyWs (c : Char) : Bool :=
  c = ' ' ∨ c = '\t' ∨ c = '\n' ∨ c = '\r'

/-- Whitespace-run splitting of a character list, discarding empty fields:
the behaviour of Python `str.split()` with no separator argument.  The
accumulator holds the current word reversed. -/
def wordsAux : List Char → List Char → List (List Char)
  | [], acc => if acc = [] then [] else [acc.reverse]
  | c :: cs, acc =>
      if pyWs c then
        if acc = [] then wordsAux cs [] else acc.reverse :: wordsAux cs []
      else wordsAux cs (c :: acc)

/-- Python `s.split()` on a string, as lists of characters. -/
def pySplit (s : String) : List (List Char) :=
  wordsAux s.data []

/-- Python `s.strip()`: drop whitespace from both ends. -/
def pyStrip (cs : List Char) : List Char :=
  ((cs.dropWhile pyWs).reverse.dropWhile pyWs).reverse

/-- Substring membership, Python's `needle in haystack` on strings. -/
def listContains (haystack needle : List Char) : Bool :=
  match haystack with
  | [] => needle.isEmpty
  | _ :: t => needle.isPrefixOf haystack || listContains t needle

/-- Python `needle in haystack` for strings. -/
def strContains (haystack needle : String) : Bool :=
  listContains haystack.data needle.data

/-- ASCII lowercasing of one character (Python `str.lower()` on the ASCII
texts this code scans). -/
def asciiLower (c : Char) : Char :=
  if 'A' ≤ c ∧ c ≤ 'Z' then Char.ofNat (c.toNat + 32) else c

/-- ASCII uppercasing of one character (Python `str.upper()`). -/
def asciiUpper (c : Char) : Char :=
  if 'a' ≤ c ∧ c ≤ 'z' then Char.ofNat (c.toNat - 32) else c

/-- Python `s.lower()`. -/
def pyLower (s : String) : String :=
  String.mk (s.data.map asciiLower)

/-- Characters that may occur in a Python float literal as accepted by
`float(...)` (sign, digits, decimal point, exponent marker). -/
def isFloatLitChar (c : Char) : Bool :=
  c.isDigit ∨ c = '.' ∨ c = '+' ∨ c = '-' ∨ c = 'e' ∨ c = 'E'

/-- Value of a digit run together with the count of digits consumed. -/
def digitsValue (ds : List Char) : Nat × Nat :=
  (decodeDigits ds, ds.length)

/-- Exact rational division, computed on numerators and denominators so that
closed instances evaluate inside the kernel; provably equal to `a / b`. -/
def ratDiv (a b : ℚ) : ℚ :=
  mkRat (a.num * b.den * (if b.num < 0 then -1 else 1)) (a.den * b.num.natAbs)

/-- Exact product of a rational and a natural scale factor, computed on the
numerator so that closed instances evaluate inside the kernel; provably
equal to `q * m`. -/
def ratScale (q : ℚ) (m : Nat) : ℚ :=
  mkRat (q.num * m) q.den

/-- Parse of a decimal float literal to an exact rational: optional sign,
integer digits, optional fraction, optional exponent; at least one digit
must be present in the mantissa.  Models Python `float(...)` on the decimal
literals handled by this code (the rational value is the exact decimal
value; see the header note on the float model). -/
def pyFloat? (s : String) : Option ℚ :=
  let cs := s.data
  let (neg, cs) : Bool × List Char :=
    match cs with
    | '-' :: t => (true, t)
    | '+' :: t => (false, t)
    | _ => (false, cs)
  let intPart := cs.takeWhile Char.isDigit
  let cs1 := cs.dropWhile Char.isDigit
  let (fracPart, cs2) : List Char × List Char :=
    match cs1 with
    | '.' :: t => (t.takeWhile Char.isDigit, t.dropWhile Char.isDigit)
    | _ => ([], cs1)
  if intPart = [] ∧ fracPart = [] then none
  else
    let mantNum : Int :=
      (if neg then -1 else 1) *
        ((decodeDigits intPart : Int) * (10 : Int) ^ fracPart.length + (decodeDigits fracPart : Int))
    let mantDen : Nat := 10 ^ fracPart.length
    match cs2 with
    | [] => some (mkRat mantNum mantDen)
    | e :: t =>
        if e = 'e' ∨ e = 'E' then
          let (esgn, ds) : Bool × List Char :=
            match t with
            | '-' :: u => (true, u)
            | '+' :: u => (false, u)
            | _ => (false, t)
          if ds ≠ [] ∧ ds.all Char.isDigit then
            some (if esgn then mkRat mantNum (mantDen * 10 ^ decodeDigits ds)
              else mkRat (mantNum * (10 : Int) ^ decodeDigits ds) mantDen)
          else none
        else none

/-- Python `int(...)` applied to a float: truncation toward zero, computed
on the reduced numerator and denominator. -/
def pyTrunc (q : ℚ) : Int :=
  if 0 ≤ q.num then ((q.num.toNat / q.den : Nat) : Int)
  else -(((-q.num).toNat / q.den : Nat) : Int)

/-! ## Size-token canonicalization

`parse_size` embeds `citadel/backup/utils.py::parse_size` (raising variant,
truncating to `int`); `parse_size_legacy` embeds `backup.py::parse_size`
(float result, `0` on any exception, unknown unit returned as-is);
`extract_size_bytes` embeds the helper of the same name used by the stats
extractor (`0` on any failure). -/

/-- Byte multiplier for a size unit, `none` for an unknown unit. -/
def unitMult? (u : List Char) : Option Nat :=
  if u = "B".data then some 1
  else if u = "KB".data then some 1024
  else if u = "MB".data then some (1024 * 1024)
  else if u = "GB".data then some (1024 * 1024 * 1024)
  else if u = "TB".data then some (1024 * 1024 * 1024 * 1024)
  else none

/-- Embedding of `citadel/backup/utils.py::parse_size`: strip surrounding
whitespace and a surrounding `(...)` pair written as a leading `(` and a
trailing `)` after a `B`, split on whitespace, require exactly two fields,
parse the float, uppercase the unit, multiply by the unit's power of 1024 and
truncate to `int`.  `none` models a raised `ValueError`; the empty / absent
input returns `0` as in the source. -/
def parse_size (s : String) : Option Int :=
  if s = "" then some 0
  else
    let cs := pyStrip s.data
    let cs := if ['B', ')'].isSuffixOf cs then cs.dropLast else cs
    let cs := if cs.head? = some '(' then cs.tail else cs
    match wordsAux cs [] with
    | [v, u] =>
        match pyFloat? (String.mk v) with
        | none => none
        | some q =>
            match unitMult? (u.map asciiUpper) with
            | some m => some (pyTrunc (ratScale q m))
            | none => none
    | _ => none

/-- Embedding of `backup.py::parse_size`: split, parse, multiply; unknown
units return the bare value, and any exception yields `0`. -/
def parse_size_legacy (s : String) : ℚ :=
  match pySplit s with
  | [v, u] =>
      match pyFloat? (String.mk v) with
      | none => 0
      | some q =>
          match unitMult? u with
          | some m => ratScale q m
          | none => q
  | _ => 0

/-- Embedding of the `extract_size_bytes` helper inside
`citadel/backup/utils.py::extract_stats_from_output` (lines 154-181): split,
require exactly two fields, parse the float, uppercase the unit; `0` on any
failure or unknown unit. -/
def extract_size_bytes (s : String) : ℚ :=
  match pySplit s with
  | [v, u] =>
      match pyFloat? (String.mk v) with
      | none => 0
      | some q =>
          match unitMult? (u.map asciiUpper) with
          | some m => ratScale q m
          | none => 0
  | _ => 0

/-! ## Ratio computation (stats extractor, citadel variant)

The size table rows of `extract_stats_from_output` store their cells as
human-readable strings under `this_archive_original_size` /
`this_archive_compressed_size` / `this_archive_deduplicated_size`; the ratio
stage (utils.py lines 183-197) then derives the two ratio entries.  A stats
dictionary is modelled by the slice of keys this stage touches; `none` models
a key that is absent from the dictionary.  The field names carry a trailing
apostrophe purely as a lexical convention of this development. -/

structure StatsSizes where
  this_archive_original_size : Option String
  this_archive_compressed_size : Option String
  this_archive_deduplicated_size : Option String

structure StatsRatios where
  compression_ratio' : Option ℚ
  deduplication_ratio' : Option ℚ

/-- Embedding of the ratio-calculation stage of
`citadel/backup/utils.py::extract_stats_from_output` (lines 183-197): each
ratio is original size divided by the compressed (resp. deduplicated) size,
computed only when both keys are present and both byte values are positive;
otherwise the ratio key is not added. -/
def compute_ratios (st : StatsSizes) : StatsRatios :=
  let comp : Option ℚ :=
    match st.this_archive_original_size, st.this_archive_compressed_size with
    | some o, some c =>
        let ob := extract_size_bytes o
        let cb := extract_size_bytes c
        if 0 < ob ∧ 0 < cb then some (ratDiv ob cb) else none
    | _, _ => none
  let dedup : Option ℚ :=
    match st.this_archive_original_size, st.this_archive_deduplicated_size with
    | some o, some d =>
        let ob := extract_size_bytes o
        let db := extract_size_bytes d
        if 0 < ob ∧ 0 < db then some (ratDiv ob db) else none
    | _, _ => none
  ⟨comp, dedup⟩

/-! ## Ratio computation (stats extractor, legacy variant)

`src/backup.py::extract_stats_from_output` (lines 117-121) stores its size
cells as numbers (the result of its own `parse_size`) and computes
`compression_ratio = compressed_size / original_size * 100` and
`deduplication_ratio = deduplicated_size / original_size * 100`, each
guarded only on the presence of the two keys and on `original_size > 0`;
the compressed (resp. deduplicated) operand is not checked, so a zero
operand yields a present ratio of `0.0`. -/

/-- The size cells of the legacy stats dictionary relevant to the ratio
step: numeric values as left by `parse_size_legacy`, `none` when the key
was never added. -/
structure LegacyStatsSizes where
  original_size' : Option ℚ
  compressed_size' : Option ℚ
  deduplicated_size' : Option ℚ

/-- The ratio keys the legacy extractor adds. -/
structure LegacyStatsRatios where
  compression_ratio'' : Option ℚ
  deduplication_ratio'' : Option ℚ

/-- Embedding of the ratio-calculation stage of
`backup.py::extract_stats_from_output` (lines 117-121): each ratio is the
compressed (resp. deduplicated) size divided by the original size, times
100, computed whenever both keys are present and the original size is
positive. -/
def compute_ratios_legacy (st : LegacyStatsSizes) : LegacyStatsRatios :=
  let comp : Option ℚ :=
    match st.original_size', st.compressed_size' with
    | some o, some c => if 0 < o then some (ratScale (ratDiv c o) 100) else none
    | _, _ => none
  let dedup : Option ℚ :=
    match st.original_size', st.deduplicated_size' with
    | some o, some d => if 0 < o then some (ratScale (ratDiv d o) 100) else none
    | _, _ => none
  ⟨comp, dedup⟩

/-! ## Output capture: severity tagging of stderr lines

Embedding of the `read_stream` helper of `backup.py::run_borg_command`
(lines 332-366): each line is right-stripped; a nonempty stderr line is
prefixed `"[ERROR] "` when the lowercased raw line contains one of the
markers `error` / `exception` / `fatal`, and `"[WARN] "` otherwise; stdout
lines are appended as stripped, with no prefix added. -/

/-- Python `line.rstrip()`. -/
def pyRstrip (s : String) : String :=
  String.mk ((s.data.reverse.dropWhile pyWs).reverse)

/-- Marker scan of `read_stream`: `any(err in line.lower() for err in [...])`. -/
def severity_markers (line : String) : Bool :=
  strContains (pyLower line) "error" ||
    strContains (pyLower line) "exception" ||
    strContains (pyLower line) "fatal"

/-- The formatted line `read_stream` appends to the job's log for one raw
line of process output. -/
def read_stream_line (line : String) (is_stderr : Bool) : String :=
  let formatted := pyRstrip line
  if is_stderr ∧ formatted ≠ "" then
    (if severity_markers line then "[ERROR] " else "[WARN] ") ++ formatted
  else formatted

/-- Appending one formatted line to `log_output`
(`if current_job.log_output: ... += "\n" + line else ... = line`). -/
def append_log_line (log : Option String) (formatted : String) : String :=
  match log with
  | some l => if l ≠ "" then l ++ "\n" ++ formatted else formatted
  | none => formatted

/-! ## The Job record and cancellation

`Job` embeds the column slice of `citadel/models/job.py::Job` that the
claims touch.  The JSON `job_metadata` blob is modelled as the typed record
`MountMeta` for the mount/orphan subsystem (its `get_metadata`/`set_metadata`
round trips are verified separately on the serialized representation, see the
JSON section); `none` models an absent key. -/

structure MountMeta where
  archive_name : Option String := none
  mount_point : Option String := none
  mount_pid : Option Int := none
  mount_status : Option String := none
  mount_job_id : Option Nat := none
  automated : Option Bool := none
  reason : Option String := none
deriving DecidableEq, Repr

structure Job where
  id : Nat
  job_type : String
  status : String
  repository_id : Nat
  user_id : Nat
  timestamp : Option Int := none
  completed_at : Option Int := none
  log_output : Option String := none
  meta : MountMeta := {}
deriving DecidableEq, Repr

/-- System calls a code path performs, in order.  A database commit is
recorded as an effect so that traces show where state is persisted;
`sigCheck` is `os.kill(pid, 0)`, `sigterm` is `os.kill(pid, SIGTERM)`,
`runCmd` is a `subprocess.run` / `subprocess.Popen` invocation. -/
inductive Effect where
  | dbCommit
  | sigCheck (pid : Int)
  | sigterm (pid : Int)
  | runCmd (cmd : List String)
deriving DecidableEq, Repr

/-- Whether an effect delivers a termination signal to a process. -/
def Effect.isTermSignal : Effect → Bool
  | .sigterm _ => true
  | _ => false

/-- Embedding of `citadel/models/job.py::Job.cancel` (lines 54-62): when the
status is `running`, flip it to `cancelled`, set `completed_at`, append the
cancellation note to the log and commit, returning `True`; otherwise do
nothing and return `False`.  The result carries the updated job, the return
value, and the trace of system calls the method performs (the method body
touches only the database — it contains no process-signalling call). -/
def Job.cancel (j : Job) (now : Int) : Job × Bool × List Effect :=
  if j.status = "running" then
    ({ j with
        status := "cancelled"
        completed_at := some now
        log_output := some ((j.log_output.getD "") ++ "\n\n--- Job cancelled by user ---") },
      true, [.dbCommit])
  else (j, false, [])

/-! ## Mount manager: `_mount_archive_thread`

Embedding of `citadel/backup/mount.py::_mount_archive_thread` (lines 47-188).
The operating system is supplied through `MountEnv`: whether the repository
row exists, whether the mount directory exists / can be created, whether
`Popen` succeeds, the line read and the `poll()` result at each iteration of
the ten-round early-output loop, and the two directory-content probes. -/

structure MountEnv where
  repoExists : Bool
  mountPointExists : Bool
  mkdirOk : Bool
  popenOk : Bool
  pid : Int
  lineAt : Nat → String
  pollAt : Nat → Option Int
  listdirEmpty1 : Bool
  listdirEmpty2 : Bool
  excMsg : String
  now : Int

/-- Outcome of the early-output polling loop of `_mount_archive_thread`. -/
inductive MountPoll where
  | errLine (output : String)
  | exitedNonzero (output : String)
  | proceed (output : String)
deriving DecidableEq, Repr

/-- The `for i in range(10)` loop of `_mount_archive_thread`: read a line,
append it to the captured output, fail on an `error`/`critical` marker, then
fail on a nonzero early exit, break on a zero exit, else sleep and continue.
Fuel counts the remaining iterations (started at 10). -/
def mountPollLoop (e : MountEnv) : Nat → Nat → String → MountPoll
  | 0, _, output => .proceed output
  | fuel + 1, i, output =>
      let line := e.lineAt i
      let output := if line ≠ "" then output ++ line else output
      if line ≠ "" ∧
          (strContains (pyLower line) "error" || strContains (pyLower line) "critical") then
        .errLine output
      else
        match e.pollAt i with
        | some rc => if rc ≠ 0 then .exitedNonzero output else .proceed output
        | none => mountPollLoop e fuel (i + 1) output

/-- Embedding of `_mount_archive_thread` from the point where the job row
has been found: set the job running, resolve the repository and the metadata,
ensure the mount directory, spawn the mount process, record its pid and the
`mounting` phase, run the polling loop, re-probe the directory content, and
finish in `success` (with `mount_status = mounted`) or `failed`.  Paths match
the source line by line; in particular the success path does not touch
`completed_at`. -/
def mount_archive_thread (j : Job) (e : MountEnv) : Job :=
  let j := { j with status := "running", timestamp := some e.now }
  if ¬ e.repoExists then
    { j with status := "failed", log_output := some "Repository not found" }
  else if j.meta.archive_name = none ∨ j.meta.archive_name = some "" ∨
      j.meta.mount_point = none ∨ j.meta.mount_point = some "" then
    { j with status := "failed", log_output := some "Missing archive name or mount point" }
  else if ¬ e.mountPointExists ∧ ¬ e.mkdirOk then
    { j with status := "failed",
             log_output := some ("Failed to create mount point: " ++ e.excMsg) }
  else if ¬ e.popenOk then
    { j with status := "failed",
             log_output := some ("Mount failed: " ++ e.excMsg),
             completed_at := some e.now }
  else
    let meta := { j.meta with mount_pid := some e.pid, mount_status := some "mounting" }
    let j := { j with meta := meta }
    match mountPollLoop e 10 0 "" with
    | .errLine output =>
        { j with status := "failed", log_output := some output, completed_at := some e.now }
    | .exitedNonzero output =>
        { j with status := "failed", log_output := some output, completed_at := some e.now }
    | .proceed output =>
        if e.listdirEmpty1 ∧ e.listdirEmpty2 then
          { j with status := "failed",
                   log_output :=
                     some (output ++ "\nMount point is empty after mounting. Mount failed."),
                   completed_at := some e.now }
        else
          { j with meta := { meta with mount_status := some "mounted" },
                   status := "success",
                   log_output := some (output ++ "\nMount successful") }

/-! ## Mount manager: `_unmount_archive_thread`

Embedding of `citadel/backup/mount.py::_unmount_archive_thread`
(lines 197-290).  `UnmountEnv` supplies the process table (`pidAlive` is the
`os.kill(pid, 0)` probe), the exit codes of the two unmount tools and whether
either invocation raises (e.g. a timeout), and — for stating the claim — an
oracle `stillMounted` telling whether the mount point still reports as
mounted after the steps; the source never consults it. -/

structure UnmountEnv where
  pidAlive : Int → Bool
  fusermountRaises : Bool
  fusermountRc : Int
  umountRaises : Bool
  umountRc : Int
  stillMounted : Bool
  excMsg : String
  now : Int

/-- Embedding of `_unmount_archive_thread` from the point where the job row
has been found.  Returns the final job together with the trace of system
calls performed.  The pid step tolerates a dead process (`OSError` from the
signal-0 probe is swallowed); a nonzero exit of `fusermount` falls through to
`umount`, whose nonzero exit is also ignored; the job is then marked
`success` with `mount_status = unmounted` unconditionally.  Only a raised
exception from a tool invocation produces `failed`. -/
def unmount_archive_thread (j : Job) (e : UnmountEnv) : Job × List Effect :=
  let j := { j with status := "running", timestamp := some e.now }
  if j.meta.mount_point = none ∨ j.meta.mount_point = some "" then
    ({ j with status := "failed", log_output := some "Missing mount point" },
      [.dbCommit, .dbCommit])
  else
    let mp := (j.meta.mount_point.getD "")
    let pidEffs : List Effect :=
      match j.meta.mount_pid with
      | some p =>
          if p ≠ 0 then
            if e.pidAlive p then [.sigCheck p, .sigterm p] else [.sigCheck p]
          else []
      | none => []
    if e.fusermountRaises then
      ({ j with status := "failed",
                log_output := some ("Unmount failed: " ++ e.excMsg),
                completed_at := some e.now },
        [.dbCommit] ++ pidEffs ++ [.runCmd ["fusermount", "-u", mp], .dbCommit])
    else if e.fusermountRc ≠ 0 then
      if e.umountRaises then
        ({ j with status := "failed",
                  log_output := some ("Unmount failed: " ++ e.excMsg),
                  completed_at := some e.now },
          [.dbCommit] ++ pidEffs ++
            [.runCmd ["fusermount", "-u", mp], .runCmd ["umount", mp], .dbCommit])
      else
        ({ j with status := "success",
                  meta := { j.meta with mount_status := some "unmounted" },
                  log_output := some ("Archive unmounted from " ++ mp),
                  completed_at := some e.now },
          [.dbCommit] ++ pidEffs ++
            [.runCmd ["fusermount", "-u", mp], .runCmd ["umount", mp], .dbCommit])
    else
      ({ j with status := "success",
                meta := { j.meta with mount_status := some "unmounted" },
                log_output := some ("Archive unmounted from " ++ mp),
                completed_at := some e.now },
        [.dbCommit] ++ pidEffs ++ [.runCmd ["fusermount", "-u", mp], .dbCommit])

/-! ## Mount status probe: `check_mount_status`

Embedding of the effective definition of
`citadel/backup/mount.py::check_mount_status` (lines 310-335; the second
definition in the module shadows the first).  The system mount table is
modelled as the list of currently mounted mount points, and the textual
output of the `mount` command as one line per entry containing that mount
point; the source tests membership by a plain substring search over that
text. -/

structure SysEnv where
  pathExists : String → Bool
  mountTable : List String
  mountCmdRaises : Bool
  listdirOk : String → Bool

/-- Textual output of the `mount` command for a given mount table: one line
per mounted path, in the conventional `device on path type fstype` shape. -/
def mount_output : List String → String
  | [] => ""
  | [p] => "borgfs on " ++ p ++ " type fuse"
  | p :: rest => "borgfs on " ++ p ++ " type fuse\n" ++ mount_output rest

/-- Embedding of `check_mount_status`: path existence, then a substring test
of the path against the `mount` output, then a directory listing whose
failure (like any other exception) yields `False`. -/
def check_mount_status (e : SysEnv) (p : String) : Bool :=
  if ¬ e.pathExists p then false
  else if e.mountCmdRaises then false
  else if strContains (mount_output e.mountTable) p then
    if e.listdirOk p then true else false
  else false

/-! ## Orphan reaper: `mount_management.py`

Embeddings of `get_all_active_mounts`, `get_orphaned_mounts` and
`unmount_orphaned` (lines 15-117).  The job store is the `jobs` list of
`OrphanEnv`; `isMounted` abstracts the `check_mount_status` probe applied to
each record's mount point. -/

structure OrphanEnv where
  jobs : List Job
  isMounted : String → Bool
  now : Int

structure ActiveMount where
  job_id : Nat
  mount_point : String
  archive_name : String
  mounted_at : Option String
  user_id : Nat
  repository_id : Nat
deriving DecidableEq, Repr

/-- Model of `datetime.isoformat` on the integer timestamp model. -/
def isoformat (t : Int) : String := String.mk (intChars t)

/-- Model of `datetime.fromisoformat`, failing (raising) on malformed text. -/
def fromisoformat (s : String) : Option Int := parseIntChars s.data

/-- Embedding of `get_all_active_mounts`: all jobs with `job_type = mount`
and `status = success` whose metadata carries a truthy mount point that
currently reports as mounted, rendered as mount records; `mounted_at` is the
`isoformat` of the job's timestamp when present, else `None`. -/
def get_all_active_mounts (e : OrphanEnv) : List ActiveMount :=
  (e.jobs.filter (fun j => j.job_type = "mount" ∧ j.status = "success")).filterMap
    (fun j =>
      match j.meta.mount_point with
      | some pt =>
          if pt ≠ "" ∧ e.isMounted pt then
            some { job_id := j.id, mount_point := pt,
                   archive_name := j.meta.archive_name.getD "Unknown",
                   mounted_at := j.timestamp.map isoformat,
                   user_id := j.user_id, repository_id := j.repository_id }
          else none
      | none => none)

/-- The per-record test of `get_orphaned_mounts`: a record with a falsy
`mounted_at` is skipped; a present timestamp is parsed, an unparsable one
counts as orphaned, a parsed one is orphaned when strictly older than the
cutoff `now - max_age_hours`. -/
def orphan_filter (now : Int) (max_age_hours : Int) (m : ActiveMount) : Bool :=
  match m.mounted_at with
  | none => false
  | some s =>
      if s = "" then false
      else
        match fromisoformat s with
        | some t => decide (t < now - max_age_hours * 3600)
        | none => true

/-- Embedding of `get_orphaned_mounts`. -/
def get_orphaned_mounts (e : OrphanEnv) (max_age_hours : Int) : List ActiveMount :=
  (get_all_active_mounts e).filter (orphan_filter e.now max_age_hours)

/-- Embedding of `unmount_orphaned`: one new `unmount` job per orphaned
record (records with a falsy job id or mount point are skipped), created in
status `pending` with metadata carrying the back-reference to the original
mount job, the mount point, the automation flag and the reason tag; the
boolean of each pair records whether the job was immediately dispatched to
`unmount_archive` (exactly when `force` is true).  The store-assigned id of
the new row is not modelled and is left `0`. -/
def unmount_orphaned (e : OrphanEnv) (max_age_hours : Int) (force : Bool) :
    List (Job × Bool) :=
  ((get_orphaned_mounts e max_age_hours).filter
      (fun m => m.job_id ≠ 0 ∧ m.mount_point ≠ "")).map
    (fun m =>
      ({ id := 0, job_type := "unmount", status := "pending",
         repository_id := m.repository_id, user_id := m.user_id,
         timestamp := some e.now,
         meta := { mount_job_id := some m.job_id, mount_point := some m.mount_point,
                   automated := some true, reason := some "Orphaned mount cleanup" } },
        force))

/-! ## JSON metadata serialization

`Job.get_metadata` / `Job.set_metadata` (citadel/models/job.py lines 26-37)
store a dictionary in the `job_metadata` text column via `json.dumps` and
read it back via `json.loads`, returning the empty dictionary when the column
is falsy or does not parse.  The JSON value space is embedded below with
numbers restricted to integers (the numeric domain of every metadata value
this code stores) and dictionaries as insertion-ordered key/value lists, the
representation Python dictionaries preserve.  `dumps` follows
`json.dumps`'s defaults (separators `", "` and `": "`, `ensure_ascii` with
`\uXXXX` escapes and surrogate pairs); `loads` is a strict parser of that
grammar which fails — as `json.loads` raises — on malformed text. -/

inductive Json where
  | null
  | boolean (b : Bool)
  | num (n : Int)
  | str (s : String)
  | arr (elems : List Json)
  | obj (members : List (String × Json))

/-! Structural size used to bound the parser's fuel. -/
mutual
/-- Size of a JSON value. -/
def sizeJ : Json → Nat
  | .null => 1
  | .boolean _ => 1
  | .num _ => 1
  | .str _ => 1
  | .arr xs => 1 + sizeL xs
  | .obj ms => 1 + sizeO ms
def sizeL : List Json → Nat
  | [] => 0
  | x :: xs => 1 + sizeJ x + sizeL xs
def sizeO : List (String × Json) → Nat
  | [] => 0
  | (_, v) :: ms => 1 + sizeJ v + sizeO ms
end

/-- Lowercase hexadecimal digit character for a value below 16. -/
def hexDigit (d : Nat) : Char :=
  match d with
  | 0 => '0' | 1 => '1' | 2 => '2' | 3 => '3' | 4 => '4'
  | 5 => '5' | 6 => '6' | 7 => '7' | 8 => '8' | 9 => '9'
  | 10 => 'a' | 11 => 'b' | 12 => 'c' | 13 => 'd' | 14 => 'e' | _ => 'f'

/-- Four-digit lowercase hexadecimal rendering of a value below `0x10000`. -/
def hex4 (n : Nat) : List Char :=
  [hexDigit (n / 4096 % 16), hexDigit (n / 256 % 16), hexDigit (n / 16 % 16), hexDigit (n % 16)]

/-- The `ensure_ascii` escaping of one character performed by `json.dumps`:
quote and backslash are escaped, the five control characters with dedicated
short escapes use them, remaining printable ASCII is literal, and everything
else becomes `\uXXXX` (a surrogate pair above `0xFFFF`). -/
def escChar (c : Char) : List Char :=
  if c = '"' then ['\\', '"']
  else if c = '\\' then ['\\', '\\']
  else if c = '\x08' then ['\\', 'b']
  else if c = '\x0c' then ['\\', 'f']
  else if c = '\n' then ['\\', 'n']
  else if c = '\r' then ['\\', 'r']
  else if c = '\t' then ['\\', 't']
  else if 0x20 ≤ c.toNat ∧ c.toNat < 0x7f then [c]
  else if c.toNat < 0x10000 then '\\' :: 'u' :: hex4 c.toNat
  else
    ('\\' :: 'u' :: hex4 (0xD800 + (c.toNat - 0x10000) / 0x400)) ++
      ('\\' :: 'u' :: hex4 (0xDC00 + (c.toNat - 0x10000) % 0x400))

/-- Escape a whole character list. -/
def escChars : List Char → List Char
  | [] => []
  | c :: cs => escChar c ++ escChars cs

/-! Serialization of a JSON value: `json.dumps` with default separators. -/
mutual
/-- Serialize one JSON value. -/
def dumpV : Json → List Char
  | .null => ['n', 'u', 'l', 'l']
  | .boolean true => ['t', 'r', 'u', 'e']
  | .boolean false => ['f', 'a', 'l', 's', 'e']
  | .num n => intChars n
  | .str s => '"' :: (escChars s.data ++ ['"'])
  | .arr xs => '[' :: (dumpL xs ++ [']'])
  | .obj ms => '{' :: (dumpO ms ++ ['}'])
def dumpL : List Json → List Char
  | [] => []
  | [x] => dumpV x
  | x :: y :: ys => dumpV x ++ ',' :: ' ' :: dumpL (y :: ys)
def dumpO : List (String × Json) → List Char
  | [] => []
  | [(k, v)] => '"' :: (escChars k.data ++ '"' :: ':' :: ' ' :: dumpV v)
  | (k, v) :: m :: ms =>
      ('"' :: (escChars k.data ++ '"' :: ':' :: ' ' :: dumpV v)) ++
        ',' :: ' ' :: dumpO (m :: ms)
end

/-- Python `json.dumps` of a dictionary, as a string. -/
def set_metadata (d : List (String × Json)) : Option String :=
  some (String.mk (dumpV (.obj d)))

/-- JSON whitespace accepted between tokens. -/
def jsonWs (c : Char) : Bool :=
  c = ' ' ∨ c = '\t' ∨ c = '\n' ∨ c = '\r'

/-- Drop leading JSON whitespace. -/
def skipWs (cs : List Char) : List Char :=
  cs.dropWhile jsonWs

/-- Value of one hexadecimal digit character, `none` otherwise. -/
def hexVal? (c : Char) : Option Nat :=
  if c.isDigit then some (c.toNat - 48)
  else if 'a' ≤ c ∧ c ≤ 'f' then some (c.toNat - 87)
  else if 'A' ≤ c ∧ c ≤ 'F' then some (c.toNat - 55)
  else none

/-- Short escapes accepted after a backslash inside a JSON string. -/
def escLookup (e : Char) : Option Char :=
  if e = '"' then some '"'
  else if e = '\\' then some '\\'
  else if e = '/' then some '/'
  else if e = 'b' then some '\x08'
  else if e = 'f' then some '\x0c'
  else if e = 'n' then some '\n'
  else if e = 'r' then some '\r'
  else if e = 't' then some '\t'
  else none

/-- Body of a JSON string after the opening quote: returns the decoded
characters and the remaining input past the closing quote.  Surrogate pairs
are recombined; a lone surrogate is rejected (Lean characters are Unicode
scalar values; `json.dumps` output never contains lone surrogates).  Raw
control characters are rejected as in the strict Python parser.  The fuel is
only a recursion bound; the input length always suffices. -/
def parseStrBody : Nat → List Char → Option (List Char × List Char)
  | 0, _ => none
  | fuel + 1, cs =>
      match cs with
      | [] => none
      | c :: rest =>
          if c = '"' then some ([], rest)
          else if c = '\\' then
            match rest with
            | [] => none
            | e :: rest2 =>
                if e = 'u' then
                  match rest2 with
                  | h1 :: h2 :: h3 :: h4 :: rest3 =>
                      match hexVal? h1, hexVal? h2, hexVal? h3, hexVal? h4 with
                      | some a, some b, some g, some d =>
                          let n := a * 4096 + b * 256 + g * 16 + d
                          if 0xD800 ≤ n ∧ n < 0xDC00 then
                            match rest3 with
                            | '\\' :: 'u' :: g1 :: g2 :: g3 :: g4 :: rest4 =>
                                match hexVal? g1, hexVal? g2, hexVal? g3, hexVal? g4 with
                                | some a2, some b2, some g2v, some d2 =>
                                    let m := a2 * 4096 + b2 * 256 + g2v * 16 + d2
                                    if 0xDC00 ≤ m ∧ m < 0xE000 then
                                      match parseStrBody fuel rest4 with
                                      | some (l, r) =>
                                          some (Char.ofNat
                                              (0x10000 + (n - 0xD800) * 0x400 + (m - 0xDC00)) :: l, r)
                                      | none => none
                                    else none
                                | _, _, _, _ => none
                            | _ => none
                          else if 0xDC00 ≤ n ∧ n < 0xE000 then none
                          else
                            match parseStrBody fuel rest3 with
                            | some (l, r) => some (Char.ofNat n :: l, r)
                            | none => none
                      | _, _, _, _ => none
                  | _ => none
                else
                  match escLookup e with
                  | some c' =>
                      match parseStrBody fuel rest2 with
                      | some (l, r) => some (c' :: l, r)
                      | none => none
                  | none => none
          else if 0x20 ≤ c.toNat then
            match parseStrBody fuel rest with
            | some (l, r) => some (c :: l, r)
            | none => none
          else none

/-- Whether the head of the remaining input would extend a just-parsed
integer into a float form the integer model does not represent. -/
def floatFollow (cs : List Char) : Bool :=
  match cs.head? with
  | some c => c = '.' ∨ c = 'e' ∨ c = 'E'
  | none => false

/-- JSON number parse restricted to the integer grammar: optional minus,
nonempty digit run without a redundant leading zero; a following `.`/`e`/`E`
(a float form) is rejected by this integral model. -/
def parseNum (cs : List Char) : Option (Int × List Char) :=
  let (neg, cs1) : Bool × List Char :=
    if cs.head? = some '-' then (true, cs.tail) else (false, cs)
  let ds := cs1.takeWhile Char.isDigit
  let rest := cs1.dropWhile Char.isDigit
  if ds = [] then none
  else if 1 < ds.length ∧ ds.head? = some '0' then none
  else if floatFollow rest then none
  else some (if neg then -(decodeDigits ds : Int) else (decodeDigits ds : Int), rest)

/-! Recursive-descent JSON parser with structural fuel: values, array
element lists (consuming the closing bracket) and object member lists
(consuming the closing brace). -/
mutual
/-- Parse one JSON value. -/
def parseVal : Nat → List Char → Option (Json × List Char)
  | 0, _ => none
  | n + 1, cs0 =>
      let cs := skipWs cs0
      if cs.take 4 = ['n', 'u', 'l', 'l'] then some (.null, cs.drop 4)
      else if cs.take 4 = ['t', 'r', 'u', 'e'] then some (.boolean true, cs.drop 4)
      else if cs.take 5 = ['f', 'a', 'l', 's', 'e'] then some (.boolean false, cs.drop 5)
      else
        match cs with
        | [] => none
        | c :: rest =>
            if c = '"' then
              match parseStrBody rest.length rest with
              | some (l, r) => some (.str (String.mk l), r)
              | none => none
            else if c = '[' then
              let r1 := skipWs rest
              if r1.head? = some ']' then some (.arr [], r1.tail)
              else
                match parseElems n r1 with
                | some (xs, r2) => some (.arr xs, r2)
                | none => none
            else if c = '{' then
              let r1 := skipWs rest
              if r1.head? = some '}' then some (.obj [], r1.tail)
              else
                match parseMembers n r1 with
                | some (ms, r2) => some (.obj ms, r2)
                | none => none
            else
              match parseNum (c :: rest) with
              | some (i, r) => some (.num i, r)
              | none => none
def parseElems : Nat → List Char → Option (List Json × List Char)
  | 0, _ => none
  | n + 1, cs =>
      match parseVal n cs with
      | some (v, r1) =>
          let r := skipWs r1
          if r.head? = some ',' then
            match parseElems n (skipWs r.tail) with
            | some (xs, r2) => some (v :: xs, r2)
            | none => none
          else if r.head? = some ']' then some ([v], r.tail)
          else none
      | none => none
def parseMembers : Nat → List Char → Option (List (String × Json) × List Char)
  | 0, _ => none
  | n + 1, cs =>
      match cs with
      | '"' :: r0 =>
          match parseStrBody r0.length r0 with
          | some (k, r1) =>
              let r1' := skipWs r1
              if r1'.head? = some ':' then
                match parseVal n (skipWs r1'.tail) with
                | some (v, r2) =>
                    let r := skipWs r2
                    if r.head? = some ',' then
                      match parseMembers n (skipWs r.tail) with
                      | some (ms, r3) => some ((String.mk k, v) :: ms, r3)
                      | none => none
                    else if r.head? = some '}' then some ([(String.mk k, v)], r.tail)
                    else none
                | none => none
              else none
          | none => none
      | _ => none
end

/-- Python `json.loads`, failing on malformed text or trailing garbage. -/
def loads (s : String) : Option Json :=
  match parseVal (s.data.length + 1) s.data with
  | some (v, rest) => if skipWs rest = [] then some v else none
  | none => none

/-- Embedding of `Job.get_metadata` as a function of the stored
`job_metadata` column value: the empty dictionary for a falsy column or a
parse failure, the parsed value otherwise.  Totality of this function is the
model of "never raises". -/
def get_metadata (stored : Option String) : Json :=
  match stored with
  | none => .obj []
  | some s => if s = "" then .obj [] else (loads s).getD (.obj [])

/-! Continuation shorthands for the parser's match arms.  Each is
definitionally equal to the corresponding arm of `parseVal`, `parseElems`
or `parseMembers`, and naming them lets the round-trip proofs rewrite the
scrutinee of one arm at a time. -/

/-- Wrap a number-parse result into a JSON value result. -/
def numBranch (r : Option (Int × List Char)) : Option (Json × List Char) :=
  match r with
  | some (i, r) => some (Json.num i, r)
  | none => none

/-- Wrap a string-body parse result into a JSON value result. -/
def strBranch (r : Option (List Char × List Char)) : Option (Json × List Char) :=
  match r with
  | some (l, r) => some (Json.str (String.mk l), r)
  | none => none

/-- Wrap an element-list parse result into a JSON array result. -/
def arrBranch (r : Option (List Json × List Char)) : Option (Json × List Char) :=
  match r with
  | some (xs, r2) => some (Json.arr xs, r2)
  | none => none

/-- Wrap a member-list parse result into a JSON object result. -/
def objBranch (r : Option (List (String × Json) × List Char)) :
    Option (Json × List Char) :=
  match r with
  | some (ms, r2) => some (Json.obj ms, r2)
  | none => none

/-- Prepend a parsed element to an element-list parse result. -/
def consBranch (v : Json) (r : Option (List Json × List Char)) :
    Option (List Json × List Char) :=
  match r with
  | some (xs, r2) => some (v :: xs, r2)
  | none => none

/-- Prepend a parsed member to a member-list parse result. -/
def memConsBranch (k : List Char) (v : Json)
    (r : Option (List (String × Json) × List Char)) :
    Option (List (String × Json) × List Char) :=
  match r with
  | some (ms, r3) => some ((String.mk k, v) :: ms, r3)
  | none => none

/-! ## Concrete fixtures used by the closed statements below -/

/-- A job currently in state `running`. -/
def runningJob : Job :=
  { id := 11, job_type := "create", status := "running", repository_id := 1, user_id := 1,
    log_output := some "out" }

/-- A freshly created job, state `created`. -/
def createdJob : Job :=
  { id := 12, job_type := "create", status := "created", repository_id := 1, user_id := 1 }

/-- A mount job about to be executed. -/
def mountJob : Job :=
  { id := 21, job_type := "mount", status := "created", repository_id := 1, user_id := 1,
    meta := { archive_name := some "arc", mount_point := some "/mnt/x" } }

/-- Environment in which the mount succeeds promptly: the repository exists,
the mount process exits its early-output window cleanly (`poll` returns 0 at
the first probe) and the mount directory is populated. -/
def mountOkEnv : MountEnv :=
  { repoExists := true, mountPointExists := true, mkdirOk := true, popenOk := true,
    pid := 42, lineAt := fun _ => "", pollAt := fun _ => some 0,
    listdirEmpty1 := false, listdirEmpty2 := false, excMsg := "boom", now := 777 }

/-- An unmount job whose recorded mount process no longer exists. -/
def unmountJob : Job :=
  { id := 22, job_type := "unmount", status := "created", repository_id := 1, user_id := 1,
    meta := { mount_point := some "/mnt/x", mount_pid := some 42 } }

/-- Environment in which the recorded pid is dead, both unmount tools return
a nonzero exit code, and the mount point still reports as mounted afterward. -/
def unmountStuckEnv : UnmountEnv :=
  { pidAlive := fun _ => false, fusermountRaises := false, fusermountRc := 1,
    umountRaises := false, umountRc := 1, stillMounted := true, excMsg := "boom", now := 9 }

/-- A successful mount job with the given timestamp, mounted at `/mnt/a`. -/
def mountedJobAt (i : Nat) (ts : Option Int) : Job :=
  { id := i, job_type := "mount", status := "success", repository_id := 3, user_id := 4,
    timestamp := ts,
    meta := { archive_name := some "arc", mount_point := some "/mnt/a" } }

/-- Orphan-reaper environment: one mount 25 hours old, one 1 hour old, one
with no timestamp at all; every mount point reports as mounted;
`now = 200000`. -/
def orphanEnv : OrphanEnv :=
  { jobs := [mountedJobAt 7 (some 110000), mountedJobAt 8 (some 196400), mountedJobAt 9 none],
    isMounted := fun _ => true, now := 200000 }

/-- The active-mount record of the 25-hour-old mount of `orphanEnv`. -/
def orphanRec25h : ActiveMount :=
  { job_id := 7, mount_point := "/mnt/a", archive_name := "arc",
    mounted_at := some "110000", user_id := 4, repository_id := 3 }

/-- The active-mount record of the 1-hour-old mount of `orphanEnv`. -/
def orphanRec1h : ActiveMount :=
  { job_id := 8, mount_point := "/mnt/a", archive_name := "arc",
    mounted_at := some "196400", user_id := 4, repository_id := 3 }

/-- The active-mount record of the timestampless mount of `orphanEnv`. -/
def orphanRecNoTs : ActiveMount :=
  { job_id := 9, mount_point := "/mnt/a", archive_name := "arc",
    mounted_at := none, user_id := 4, repository_id := 3 }

/-- Filesystem environment in which `/tmp/m/ab` is the only mounted path
while `/tmp/m/a` also exists as a plain (non-mounted) directory. -/
def staleDirEnv : SysEnv :=
  { pathExists := fun _ => true, mountTable := ["/tmp/m/ab"], mountCmdRaises := false,
    listdirOk := fun _ => true }

/-! ## Helper lemmas -/

theorem dropWhile_ws_eq_self {l : List Char}
    (h : ∀ c, l.head? = some c → pyWs c = false) : l.dropWhile pyWs = l := by
  cases l with
  | nil => rfl
  | cons c t => simp [List.dropWhile_cons, h c rfl]

theorem pyStrip_eq_self {l : List Char}
    (h1 : ∀ c, l.head? = some c → pyWs c = false)
    (h2 : ∀ c, l.getLast? = some c → pyWs c = false) : pyStrip l = l := by
  unfold pyStrip
  rw [dropWhile_ws_eq_self h1, dropWhile_ws_eq_self (by simpa using h2), List.reverse_reverse]

theorem wordsAux_no_ws_append {b : List Char} :
    ∀ (a acc : List Char), (∀ c ∈ a, pyWs c = false) → acc.reverse ++ a ≠ [] →
      wordsAux (a ++ ' ' :: b) acc = (acc.reverse ++ a) :: wordsAux b []
  | [], acc, _, hne => by
    have hacc : acc ≠ [] := by simpa using hne
    simp only [List.nil_append, wordsAux]
    rw [if_pos (by decide), if_neg hacc]
    simp
  | c :: a', acc, h, _ => by
    have hc : pyWs c = false := h c (by simp)
    simp only [List.cons_append, wordsAux, hc, List.append_eq]
    rw [if_neg (by simp [hc])]
    rw [wordsAux_no_ws_append a' (c :: acc) (fun d hd => h d (by simp [hd])) (by simp)]
    simp

theorem wordsAux_no_ws_final :
    ∀ (b acc : List Char), (∀ c ∈ b, pyWs c = false) → acc.reverse ++ b ≠ [] →
      wordsAux b acc = [acc.reverse ++ b]
  | [], acc, _, hne => by
    have hacc : acc ≠ [] := by simpa using hne
    simp [wordsAux, hacc]
  | c :: b', acc, h, _ => by
    have hc : pyWs c = false := h c (by simp)
    simp only [wordsAux]
    rw [if_neg (by simp [hc])]
    rw [wordsAux_no_ws_final b' (c :: acc) (fun d hd => h d (by simp [hd])) (by simp)]
    simp

theorem isPrefixOf_append_self : ∀ (a b : List Char), a.isPrefixOf (a ++ b) = true
  | [], _ => by simp [List.isPrefixOf]
  | c :: a', b => by simp [List.isPrefixOf, isPrefixOf_append_self a' b]

theorem listContains_iff_infix {h n : List Char} :
    listContains h n = true ↔ n <:+: h := by
  induction h with
  | nil => simp [listContains, List.isEmpty_iff]
  | cons c t ih =>
      simp [listContains, ih, List.infix_cons_iff, List.isPrefixOf_iff_prefix]

theorem strContains_of_mem_mount_output {p : String} :
    ∀ {tbl : List String}, p ∈ tbl → strContains (mount_output tbl) p = true := by
  intro tbl
  induction tbl with
  | nil => intro h; cases h
  | cons q rest ih =>
      intro hp
      rw [strContains, listContains_iff_infix]
      rcases List.mem_cons.mp hp with rfl | hmem
      · cases rest with
        | nil =>
            exact ⟨"borgfs on ".data, " type fuse".data, by simp [mount_output]⟩
        | cons r rs =>
            exact ⟨"borgfs on ".data, (" type fuse\n" ++ mount_output (r :: rs)).data,
              by simp [mount_output]⟩
      · cases rest with
        | nil => cases hmem
        | cons r rs =>
            have hin : p.data <:+: (mount_output (r :: rs)).data := by
              rw [← listContains_iff_infix]
              exact (ih hmem)
            refine hin.trans ?_
            have hsuf : (mount_output (r :: rs)).data <:+
                (mount_output (q :: r :: rs)).data := by
              simp only [mount_output, String.data_append]
              exact (List.suffix_append _ _)
            exact hsuf.isInfix

theorem ratScale_eq (q : ℚ) (m : Nat) : ratScale q m = q * m := by
  have hden : (q.den : ℚ) ≠ 0 := Nat.cast_ne_zero.mpr q.den_nz
  have h : q * (q.den : ℚ) = (q.num : ℚ) := by
    nth_rewrite 1 [← Rat.num_div_den q]
    exact div_mul_cancel₀ _ hden
  rw [ratScale, Rat.mkRat_eq_div, div_eq_iff hden]
  push_cast
  calc (q.num : ℚ) * (m : ℚ) = q * q.den * m := by rw [h]
    _ = q * m * q.den := by ring

theorem ratDiv_eq (a b : ℚ) : ratDiv a b = a / b := by
  rcases eq_or_ne b 0 with rfl | hb
  · simp [ratDiv, Rat.mkRat_eq_div]
  · have hbnum : b.num ≠ 0 := Rat.num_ne_zero.mpr hb
    have hbden : (b.den : ℚ) ≠ 0 := Nat.cast_ne_zero.mpr b.den_nz
    have haden : (a.den : ℚ) ≠ 0 := Nat.cast_ne_zero.mpr a.den_nz
    have hbq : ((b.num : ℚ)) ≠ 0 := Int.cast_ne_zero.mpr hbnum
    rw [ratDiv, Rat.mkRat_eq_div]
    rcases lt_or_gt_of_ne hbnum with hneg | hpos
    · rw [if_pos hneg]
      push_cast [Int.cast_natAbs]
      rw [abs_of_neg (show ((b.num : ℚ)) < 0 by exact_mod_cast hneg)]
      have hnq : -((b.num : ℚ)) ≠ 0 := neg_ne_zero.mpr hbq
      conv_rhs => rw [← Rat.num_div_den a, ← Rat.num_div_den b]
      field_simp
    · rw [if_neg (by omega : ¬ b.num < 0)]
      push_cast [Int.cast_natAbs]
      rw [abs_of_pos (show (0 : ℚ) < (b.num : ℚ) by exact_mod_cast hpos)]
      conv_rhs => rw [← Rat.num_div_den a, ← Rat.num_div_den b]
      field_simp

/-! ## Claim C1 — cancellation -/

/-- C1 counterexample: cancelling the concrete running job `runningJob` is
accepted (`True` is returned) and the status flips to `cancelled`, yet the
trace of system calls the method performs contains no process-termination
signal, so the claim's requirement that the underlying subprocess or mount
process receive a termination signal before the state flip is false on this
code. -/
theorem c1_cancel_counterexample :
    (Job.cancel runningJob 5).2.1 = true ∧
    (Job.cancel runningJob 5).1.status = "cancelled" ∧
    ¬ ∃ eff ∈ (Job.cancel runningJob 5).2.2, eff.isTermSignal = true := by
  decide

/-- C1 (amended): cancelling a job in any non-`running` status (such as
`created`) is a no-op returning `False` that performs no system call and
leaves the job unchanged; cancelling a `running` job flips it to
`cancelled`, sets `completed_at`, appends the cancellation note to the log
and returns `True`, but delivers no termination signal to any process — the
cancellation is a record-only state flip. -/
theorem c1_cancel_amended (j : Job) (now : Int) :
    (j.status = "running" →
      (Job.cancel j now).1.status = "cancelled" ∧
      (Job.cancel j now).1.completed_at = some now ∧
      (Job.cancel j now).1.log_output =
        some ((j.log_output.getD "") ++ "\n\n--- Job cancelled by user ---") ∧
      (Job.cancel j now).2.1 = true ∧
      ∀ eff ∈ (Job.cancel j now).2.2, eff.isTermSignal = false) ∧
    (j.status ≠ "running" →
      (Job.cancel j now).1 = j ∧ (Job.cancel j now).2.1 = false ∧
      (Job.cancel j now).2.2 = []) := by
  constructor <;> intro h <;> simp [Job.cancel, h, Effect.isTermSignal]

/-- C1 witness: the amended theorem evaluated on a running job and on a
freshly created job. -/
theorem c1_cancel_amended_witness :
    (Job.cancel runningJob 5).2.1 = true ∧ (Job.cancel createdJob 5).2.1 = false :=
  ⟨((c1_cancel_amended runningJob 5).1 rfl).2.2.2.1,
   ((c1_cancel_amended createdJob 5).2 (by decide)).2.1⟩

/-! ## Claim C2 — `completed_at` on terminal status -/

/-- C2: the claim states the invariant `completed_at != null ⟺ status
terminal`, and the code violates it: on the concrete mount job and
environment below (repository present, mount process healthy, mount
directory populated) the mount thread finishes in terminal status `success`
with `mount_status = mounted` while `completed_at` is still null — the
success path of `_mount_archive_thread` never assigns `completed_at`. -/
theorem c2_mount_success_leaves_completed_at_null :
    (mount_archive_thread mountJob mountOkEnv).status = "success" ∧
    (mount_archive_thread mountJob mountOkEnv).meta.mount_status = some "mounted" ∧
    (mount_archive_thread mountJob mountOkEnv).completed_at = none := by
  decide

/-! ## Claim C5 — the unmount sequence -/

/-- C5 counterexample: on the concrete unmount job whose recorded process no
longer exists and whose two unmount tools both return a nonzero exit code,
the mount point still reports as mounted afterwards, yet the job finishes in
`success` with `mount_status = unmounted` — the claim's biconditional
"terminal verdict is `failed` exactly when the mount point still reports as
mounted" is false on this input. -/
theorem c5_unmount_verdict_counterexample :
    (unmount_archive_thread unmountJob unmountStuckEnv).1.status = "success" ∧
    (unmount_archive_thread unmountJob unmountStuckEnv).1.meta.mount_status =
      some "unmounted" ∧
    unmountStuckEnv.stillMounted = true ∧
    ¬ ((unmount_archive_thread unmountJob unmountStuckEnv).1.status = "failed" ↔
        unmountStuckEnv.stillMounted = true) := by
  decide

/-- C5 (amended): for every unmount job with a truthy mount point, and
regardless of whether the recorded process id exists (or is recorded at
all), when neither unmount tool raises the sequence runs to completion —
the `fusermount` invocation is always reached — and the job is marked
`success` with `mount_status = unmounted` and `completed_at` set,
irrespective of the tools' exit codes and of whether the mount point still
reports as mounted; the job is marked `failed` only when the `fusermount`
invocation raises (for instance a timeout), in which case the remaining
steps are skipped. -/
theorem c5_unmount_amended (j : Job) (e : UnmountEnv) (mp : String)
    (hmp : j.meta.mount_point = some mp) (hne : mp ≠ "") :
    (e.fusermountRaises = false → e.umountRaises = false →
      (unmount_archive_thread j e).1.status = "success" ∧
      (unmount_archive_thread j e).1.meta.mount_status = some "unmounted" ∧
      (unmount_archive_thread j e).1.completed_at = some e.now ∧
      Effect.runCmd ["fusermount", "-u", mp] ∈ (unmount_archive_thread j e).2) ∧
    (e.fusermountRaises = true →
      (unmount_archive_thread j e).1.status = "failed" ∧
      (unmount_archive_thread j e).1.completed_at = some e.now ∧
      Effect.runCmd ["fusermount", "-u", mp] ∈ (unmount_archive_thread j e).2) := by
  unfold unmount_archive_thread
  rw [if_neg (by simp [hmp, hne])]
  simp only [hmp, Option.getD_some]
  constructor
  · intro hf hu
    rw [if_neg (by simp [hf])]
    split
    · rw [if_neg (by simp [hu])]
      simp
    · simp
  · intro hf
    rw [if_pos (by simp [hf])]
    simp

/-- C5 witness: the amended theorem evaluated on the concrete stuck
environment (dead pid, both tools failing). -/
theorem c5_unmount_amended_witness :
    (unmount_archive_thread unmountJob unmountStuckEnv).1.status = "success" ∧
    (unmount_archive_thread unmountJob unmountStuckEnv).1.meta.mount_status =
      some "unmounted" ∧
    (unmount_archive_thread unmountJob unmountStuckEnv).1.completed_at =
      some unmountStuckEnv.now ∧
    Effect.runCmd ["fusermount", "-u", "/mnt/x"] ∈
      (unmount_archive_thread unmountJob unmountStuckEnv).2 :=
  (c5_unmount_amended unmountJob unmountStuckEnv "/mnt/x" rfl (by decide)).1 rfl rfl

/-! ## Claim C6 — finding orphaned mounts -/

/-- C6 counterexample: the claim demands that a record with a missing
timestamp be included among the orphaned mounts; on the concrete store below
the timestampless record is an active mount, yet `get_orphaned_mounts`
excludes it — the code skips records whose `mounted_at` is falsy instead of
treating them as orphaned. -/
theorem c6_missing_timestamp_counterexample :
    orphanRecNoTs ∈ get_all_active_mounts orphanEnv ∧
    orphanRecNoTs.mounted_at = none ∧
    orphanRecNoTs ∉ get_orphaned_mounts orphanEnv 24 := by
  decide

/-- C6 (amended): a record is returned by `get_orphaned_mounts` exactly when
it is an active mounted record carrying a present (truthy) timestamp that
either fails to parse or is strictly older than `maxAge` hours before now;
records with a missing timestamp are excluded, not treated as orphaned.  In
particular, with `maxAge = 24` hours, the concrete store `orphanEnv`
(`now = 200000`) yields exactly the record mounted 25 hours ago
(`90000` seconds old), excluding the one mounted 1 hour ago and the
timestampless one. -/
theorem c6_get_orphaned_amended (e : OrphanEnv) (h : Int) (m : ActiveMount) :
    (m ∈ get_orphaned_mounts e h ↔
      m ∈ get_all_active_mounts e ∧
      ∃ s, m.mounted_at = some s ∧ s ≠ "" ∧
        (fromisoformat s = none ∨
          ∃ t, fromisoformat s = some t ∧ t < e.now - h * 3600)) ∧
    get_all_active_mounts orphanEnv = [orphanRec25h, orphanRec1h, orphanRecNoTs] ∧
    get_orphaned_mounts orphanEnv 24 = [orphanRec25h] := by
  refine ⟨?_, by decide, by decide⟩
  rw [get_orphaned_mounts, List.mem_filter]
  apply and_congr_right
  intro _
  rcases hm : m.mounted_at with _ | s
  · simp [orphan_filter, hm]
  · rcases eq_or_ne s "" with rfl | hs
    · simp [orphan_filter, hm]
    · rcases hf : fromisoformat s with _ | t <;>
        simp [orphan_filter, hm, hs, hf]

/-- C6 witness: the amended characterization applied to the 25-hour-old
record of the concrete store. -/
theorem c6_get_orphaned_amended_witness :
    orphanRec25h ∈ get_orphaned_mounts orphanEnv 24 :=
  (c6_get_orphaned_amended orphanEnv 24 orphanRec25h).1.mpr
    ⟨by decide, "110000", rfl, by decide, Or.inr ⟨110000, by decide, by decide⟩⟩

/-! ## Claim C7 — the mount-status probe -/

/-- C7 counterexample: in the concrete environment where `/tmp/m/ab` is the
only genuinely mounted path, the path `/tmp/m/a` exists as a plain directory
and is not a member of the mount table, yet `check_mount_status` reports it
as mounted — the probe is a substring test against the `mount` output, not a
genuine membership test, so the claim "returns true only for genuine
members; a stale existing directory is never reported as mounted" is false
on this input. -/
theorem c7_check_mount_counterexample :
    check_mount_status staleDirEnv "/tmp/m/a" = true ∧
    staleDirEnv.pathExists "/tmp/m/a" = true ∧
    "/tmp/m/a" ∉ staleDirEnv.mountTable := by
  decide

/-- C7 (amended): `check_mount_status` returns true exactly when the path
exists, the `mount` command does not raise, the path occurs as a substring
of the `mount` output, and the directory listing succeeds; every genuinely
mounted path satisfies the substring test, so genuine members are reported
mounted, but a path that merely occurs inside another entry's text (such as
a proper prefix of a mounted path) is also reported mounted even though it
is not itself a member of the mount table. -/
theorem c7_check_mount_amended (e : SysEnv) (p : String) :
    (check_mount_status e p = true ↔
      e.pathExists p = true ∧ e.mountCmdRaises = false ∧
      strContains (mount_output e.mountTable) p = true ∧ e.listdirOk p = true) ∧
    (p ∈ e.mountTable → e.pathExists p = true → e.mountCmdRaises = false →
      e.listdirOk p = true → check_mount_status e p = true) := by
  constructor
  · unfold check_mount_status
    split_ifs with h1 h2 h3 h4 <;> simp_all
  · intro hmem h1 h2 h3
    unfold check_mount_status
    simp [h1, h2, h3, strContains_of_mem_mount_output hmem]

/-- C7 witness: the amended theorem applied to the genuinely mounted path of
the concrete environment. -/
theorem c7_check_mount_amended_witness :
    check_mount_status staleDirEnv "/tmp/m/ab" = true :=
  (c7_check_mount_amended staleDirEnv "/tmp/m/ab").2 (by decide) rfl rfl rfl

/-! ## Claim C8 — reaping orphaned mounts -/

/-- C8 counterexample: on the concrete store (one orphaned record), with
`force = false`, the single job `unmount_orphaned` creates is left in status
`pending`, not in status `created` as the claim states. -/
theorem c8_pending_not_created_counterexample :
    (∀ p ∈ unmount_orphaned orphanEnv 24 false, p.1.status = "pending" ∧ p.2 = false) ∧
    (∃ p ∈ unmount_orphaned orphanEnv 24 false, ¬ p.1.status = "created") := by
  decide

/-- The construction of `get_all_active_mounts` only emits records whose
job id is a store id and whose mount point is truthy. -/
theorem active_mount_fields (e : OrphanEnv) (m : ActiveMount)
    (hm : m ∈ get_all_active_mounts e) :
    (∃ j ∈ e.jobs, m.job_id = j.id) ∧ m.mount_point ≠ "" := by
  unfold get_all_active_mounts at hm
  rcases List.mem_filterMap.mp hm with ⟨j, hj, hf⟩
  split at hf
  · split_ifs at hf with hc
    obtain rfl := Option.some_injective _ hf
    exact ⟨⟨j, (List.mem_filter.mp hj).1, rfl⟩, hc.1⟩
  · simp at hf

/-- C8 (amended): provided every store id is nonzero (ids are assigned from
1), `unmount_orphaned` creates exactly one new `unmount` job per orphaned
record — in store order, skipping none — whose status is `pending` (not
`created`), whose metadata carries the back-reference `mount_job_id` to the
original mount job, the mount point, the automation flag and the reason tag
`Orphaned mount cleanup`, and which is immediately dispatched to the
executor exactly when `force` is true. -/
theorem c8_unmount_orphaned_amended (e : OrphanEnv) (h : Int) (force : Bool)
    (hid : ∀ j ∈ e.jobs, j.id ≠ 0) :
    unmount_orphaned e h force =
      (get_orphaned_mounts e h).map (fun m =>
        ({ id := 0, job_type := "unmount", status := "pending",
           repository_id := m.repository_id, user_id := m.user_id,
           timestamp := some e.now,
           meta := { mount_job_id := some m.job_id, mount_point := some m.mount_point,
                     automated := some true, reason := some "Orphaned mount cleanup" } },
          force)) := by
  unfold unmount_orphaned
  rw [List.filter_eq_self.mpr]
  intro m hm
  have hact : m ∈ get_all_active_mounts e := (List.mem_filter.mp hm).1
  obtain ⟨⟨j, hj, hjd⟩, hpt⟩ := active_mount_fields e m hact
  have : m.job_id ≠ 0 := by rw [hjd]; exact hid j hj
  simp [this, hpt]

/-- C8 witness: the amended theorem evaluated on the concrete store. -/
theorem c8_unmount_orphaned_amended_witness :
    unmount_orphaned orphanEnv 24 false =
      (get_orphaned_mounts orphanEnv 24).map (fun m =>
        ({ id := 0, job_type := "unmount", status := "pending",
           repository_id := m.repository_id, user_id := m.user_id,
           timestamp := some orphanEnv.now,
           meta := { mount_job_id := some m.job_id, mount_point := some m.mount_point,
                     automated := some true, reason := some "Orphaned mount cleanup" } },
          false)) :=
  c8_unmount_orphaned_amended orphanEnv 24 false (by decide)

/-! ## Claim C9 — severity tagging of captured output -/

/-- C9: a stderr line that is nonempty after stripping trailing whitespace
is appended prefixed with `"[ERROR] "` exactly when the lowercased raw line
contains one of the markers `error`, `exception` or `fatal`, and with
`"[WARN] "` otherwise; a stdout line is appended as stripped with no
severity prefix added. -/
theorem c9_read_stream_tagging (line : String) :
    (pyRstrip line ≠ "" →
      read_stream_line line true =
        (if severity_markers line then "[ERROR] " else "[WARN] ") ++ pyRstrip line ∧
      ("[ERROR] ".data.isPrefixOf (read_stream_line line true).data) =
        severity_markers line ∧
      ("[WARN] ".data.isPrefixOf (read_stream_line line true).data) =
        !severity_markers line) ∧
    read_stream_line line false = pyRstrip line := by
  constructor
  · intro h
    refine ⟨by simp [read_stream_line, h], ?_, ?_⟩ <;>
      rcases hm : severity_markers line with _ | _ <;>
        simp only [read_stream_line, hm, if_pos, if_neg, Bool.not_false, Bool.not_true] <;>
          simp [h, String.data_append, isPrefixOf_append_self,
            show "[ERROR] ".data = ['[', 'E', 'R', 'R', 'O', 'R', ']', ' '] from rfl,
            show "[WARN] ".data = ['[', 'W', 'A', 'R', 'N', ']', ' '] from rfl,
            List.isPrefixOf]
  · simp [read_stream_line]

/-! ## Claim C4 — size-token canonicalization -/

theorem pyFloat?_ne_nil {v : String} {q : ℚ} (hv : pyFloat? v = some q) :
    v.data ≠ [] := by
  intro hnil
  have h0 : pyFloat? v = none := by
    unfold pyFloat?
    rw [hnil]
    rfl
  rw [h0] at hv
  exact Option.noConfusion hv

theorem floatLit_not_ws {c : Char} (h : isFloatLitChar c = true) : pyWs c = false := by
  by_contra hw
  have hw' : pyWs c = true := by revert hw; cases pyWs c <;> simp
  simp only [pyWs, decide_eq_true_eq] at hw'
  rcases hw' with rfl | rfl | rfl | rfl <;> exact absurd h (by decide)

theorem floatLit_ne_lparen {c : Char} (h : isFloatLitChar c = true) : c ≠ '(' := by
  intro hc
  rw [hc] at h
  exact absurd h (by decide)

/-- Evaluation of both `parse_size` variants on a well-formed size token
`<float> <unit>`: the float is scaled by the unit's byte multiplier, the
citadel variant truncating to `int`. -/
theorem parse_size_token_eval (v u : String) (q : ℚ) (m : Nat)
    (hv : pyFloat? v = some q)
    (hchars : ∀ c ∈ v.data, isFloatLitChar c = true)
    (huws : ∀ c ∈ u.data, pyWs c = false)
    (hurev : u.data.reverse.head? = some 'B')
    (humU : unitMult? (u.data.map asciiUpper) = some m)
    (hum : unitMult? u.data = some m) :
    parse_size (v ++ " " ++ u) = some (pyTrunc (ratScale q m)) ∧
    parse_size_legacy (v ++ " " ++ u) = ratScale q m := by
  have hvne : v.data ≠ [] := pyFloat?_ne_nil hv
  obtain ⟨c0, v', hd⟩ : ∃ c0 v', v.data = c0 :: v' := by
    cases hvd : v.data with
    | nil => exact absurd hvd hvne
    | cons a b => exact ⟨a, b, rfl⟩
  have hc0 : isFloatLitChar c0 = true := hchars c0 (by rw [hd]; exact List.mem_cons_self _ _)
  obtain ⟨ur, hur⟩ : ∃ t, u.data.reverse = 'B' :: t := by
    cases hrv : u.data.reverse with
    | nil => rw [hrv] at hurev; exact absurd hurev (by simp)
    | cons a t =>
        rw [hrv] at hurev
        simp only [List.head?_cons, Option.some.injEq] at hurev
        exact ⟨t, by rw [hurev]⟩
  have hune : u.data ≠ [] := by
    intro h
    rw [h] at hur
    exact List.noConfusion hur
  have htok : (v ++ " " ++ u).data = v.data ++ ' ' :: u.data := by
    simp [String.data_append, show (" " : String).data = [' '] from rfl]
  have hvws : ∀ c ∈ v.data, pyWs c = false := fun c hc => floatLit_not_ws (hchars c hc)
  have hwords : wordsAux (v.data ++ ' ' :: u.data) [] = [v.data, u.data] := by
    rw [wordsAux_no_ws_append v.data [] hvws (by simpa using hvne)]
    rw [wordsAux_no_ws_final u.data [] huws (by simpa using hune)]
    simp
  have hmkv : String.mk v.data = v := rfl
  have hmku : String.mk u.data = u := rfl
  constructor
  · have h1 : ¬ (v ++ " " ++ u) = "" := by
      intro h
      have h2 := congrArg String.data h
      rw [htok] at h2
      rw [hd] at h2
      exact List.noConfusion h2
    have hstrip : pyStrip (v.data ++ ' ' :: u.data) = v.data ++ ' ' :: u.data := by
      apply pyStrip_eq_self
      · intro c hc
        rw [hd, List.cons_append, List.head?_cons] at hc
        obtain rfl := Option.some_injective _ hc.symm
        exact floatLit_not_ws hc0
      · intro c hc
        rw [← List.head?_reverse, List.reverse_append, List.reverse_cons, hur] at hc
        simp only [List.cons_append, List.head?_cons, Option.some.injEq] at hc
        rw [← hc]
        decide
    have hsuf : ['B', ')'].isSuffixOf (v.data ++ ' ' :: u.data) = false := by
      have hrev : (v.data ++ ' ' :: u.data).reverse = 'B' :: (ur ++ [' '] ++ v.data.reverse) := by
        rw [List.reverse_append, List.reverse_cons, hur]
        simp
      show (['B', ')'].reverse.isPrefixOf (v.data ++ ' ' :: u.data).reverse) = false
      rw [hrev, show ['B', ')'].reverse = [')', 'B'] from rfl]
      simp only [List.isPrefixOf, show ((')' == 'B') : Bool) = false from rfl, Bool.false_and]
    have hhead : ¬ (v.data ++ ' ' :: u.data).head? = some '(' := by
      rw [hd, List.cons_append, List.head?_cons]
      intro h
      exact floatLit_ne_lparen hc0 (Option.some_injective _ h)
    unfold parse_size
    rw [if_neg h1]
    simp only [htok, hstrip, hsuf, Bool.false_eq_true, if_false, if_neg hhead, hwords,
      hmkv, hv, humU]
  · unfold parse_size_legacy pySplit
    simp only [htok, hwords, hmkv, hv, hum]

/-- C4: parsing a size token `<float> <unit>` with unit in B/KB/MB/GB/TB
multiplies the parsed float by the exact corresponding power of 1024 — the
citadel `parse_size` canonicalizes the product to integral bytes, the legacy
variant returns the exact product — and in particular `"1.00 GB"` yields
1073741824 bytes and `"500.00 MB"` yields 524288000 bytes in both
variants. -/
theorem c4_parse_size_canonicalization (v u : String) (q : ℚ) (m : Nat)
    (hv : pyFloat? v = some q)
    (hchars : ∀ c ∈ v.data, isFloatLitChar c = true)
    (hu : (u, m) ∈ [("B", 1), ("KB", 1024), ("MB", 1024 * 1024),
      ("GB", 1024 * 1024 * 1024), ("TB", 1024 * 1024 * 1024 * 1024)]) :
    parse_size (v ++ " " ++ u) = some (pyTrunc (q * m)) ∧
    parse_size_legacy (v ++ " " ++ u) = q * m ∧
    parse_size "1.00 GB" = some 1073741824 ∧
    parse_size "500.00 MB" = some 524288000 ∧
    parse_size_legacy "1.00 GB" = 1073741824 ∧
    parse_size_legacy "500.00 MB" = 524288000 := by
  have main : parse_size (v ++ " " ++ u) = some (pyTrunc (ratScale q m)) ∧
      parse_size_legacy (v ++ " " ++ u) = ratScale q m := by
    simp only [List.mem_cons, List.not_mem_nil, or_false, Prod.mk.injEq] at hu
    rcases hu with ⟨rfl, rfl⟩ | ⟨rfl, rfl⟩ | ⟨rfl, rfl⟩ | ⟨rfl, rfl⟩ | ⟨rfl, rfl⟩ <;>
      exact parse_size_token_eval _ _ _ _ hv hchars (by decide) (by decide)
        (by decide) (by decide)
  rw [ratScale_eq] at main
  exact ⟨main.1, main.2, by decide, by decide, by decide, by decide⟩

/-- C4 witness: the theorem evaluated at the token `"1.00" ++ " " ++ "GB"`. -/
theorem c4_parse_size_canonicalization_witness :
    parse_size ("1.00" ++ " " ++ "GB") = some (pyTrunc ((1 : ℚ) * (1024 * 1024 * 1024 : Nat))) ∧
    parse_size_legacy ("1.00" ++ " " ++ "GB") = (1 : ℚ) * (1024 * 1024 * 1024 : Nat) ∧
    parse_size "1.00 GB" = some 1073741824 ∧
    parse_size "500.00 MB" = some 524288000 ∧
    parse_size_legacy "1.00 GB" = 1073741824 ∧
    parse_size_legacy "500.00 MB" = 524288000 :=
  c4_parse_size_canonicalization "1.00" "GB" 1 (1024 * 1024 * 1024)
    (by decide) (by decide) (by decide)

/-! ## Claim C3 — ratio computation -/

/-- The guard pattern both ratio computations of the stats extractor share:
the ratio entry is produced exactly when both operands are present with
positive byte values, and then equals their exact quotient. -/
theorem ratio_guard_iff (o? c? : Option String) (r : ℚ) :
    (match o?, c? with
      | some o, some c =>
          let ob := extract_size_bytes o
          let cb := extract_size_bytes c
          if 0 < ob ∧ 0 < cb then some (ratDiv ob cb) else none
      | _, _ => none) = some r ↔
      ∃ o c, o? = some o ∧ c? = some c ∧ 0 < extract_size_bytes o ∧
        0 < extract_size_bytes c ∧ r = extract_size_bytes o / extract_size_bytes c := by
  rcases o? with _ | o
  · simp
  · rcases c? with _ | c
    · simp
    · simp only
      split_ifs with hpos
      · constructor
        · intro h
          refine ⟨o, c, rfl, rfl, hpos.1, hpos.2, ?_⟩
          rw [← Option.some_injective _ h, ratDiv_eq]
        · rintro ⟨o', c', ho, hc, _, _, hr⟩
          obtain rfl := Option.some_injective _ ho
          obtain rfl := Option.some_injective _ hc
          rw [hr, ratDiv_eq]
      · constructor
        · intro h
          exact absurd h (by simp)
        · rintro ⟨o', c', ho, hc, h1, h2, _⟩
          obtain rfl := Option.some_injective _ ho
          obtain rfl := Option.some_injective _ hc
          exact absurd ⟨h1, h2⟩ hpos

/-- The guard pattern the two legacy ratio computations share: the ratio
entry is produced exactly when both size keys are present and the original
size is positive, and then equals the second operand divided by the
original, times 100. -/
theorem legacy_guard_iff (o? s? : Option ℚ) (r : ℚ) :
    (match o?, s? with
      | some o, some s => if 0 < o then some (ratScale (ratDiv s o) 100) else none
      | _, _ => none) = some r ↔
      ∃ o s, o? = some o ∧ s? = some s ∧ 0 < o ∧ r = s / o * 100 := by
  rcases o? with _ | o
  · simp
  · rcases s? with _ | s
    · simp
    · simp only
      split_ifs with hpos
      · constructor
        · intro h
          refine ⟨o, s, rfl, rfl, hpos, ?_⟩
          rw [← Option.some_injective _ h, ratScale_eq, ratDiv_eq]
          norm_cast
        · rintro ⟨o', s', ho, hs, _, hr⟩
          obtain rfl := Option.some_injective _ ho
          obtain rfl := Option.some_injective _ hs
          rw [hr, ratScale_eq, ratDiv_eq]
          norm_cast
      · constructor
        · intro h
          exact absurd h (by simp)
        · rintro ⟨o', s', ho, hs, h1, _⟩
          obtain rfl := Option.some_injective _ ho
          obtain rfl := Option.some_injective _ hs
          exact absurd h1 hpos

/-- C3 counterexample: on the claim's own instance (original 1073741824
bytes, compressed 536870912 bytes) the legacy extractor of `backup.py`
stores a compression ratio of 50, not the claimed 2 — it computes
`compressed / original * 100` — and a deduplicated operand of 0 yields a
present deduplication ratio of 0, where the claim demands the key be
absent, never present as zero. -/
theorem c3_ratio_counterexample :
    parse_size_legacy "1.00 GB" = 1073741824 ∧
    parse_size_legacy "512.00 MB" = 536870912 ∧
    (compute_ratios_legacy
        ⟨some 1073741824, some 536870912, some 0⟩).compression_ratio'' = some 50 ∧
    ¬ ((compute_ratios_legacy
        ⟨some 1073741824, some 536870912, some 0⟩).compression_ratio'' = some 2) ∧
    (compute_ratios_legacy
        ⟨some 1073741824, some 536870912, some 0⟩).deduplication_ratio'' = some 0 := by
  decide

/-- C3 (amended): the two stats extractors disagree.  The citadel extractor
(`citadel/backup/utils.py`) stores compression ratio = original / compressed
and deduplication ratio = original / deduplicated exactly when both operands
are present with positive byte values, leaving the key absent otherwise
(never zero or infinite); on it, original `1.00 GB` and compressed
`512.00 MB` give exactly 2 and a deduplicated operand of `0.00 B` leaves
the deduplication ratio absent.  The legacy extractor (`backup.py`) instead
stores compressed / original * 100 (resp. deduplicated / original * 100)
whenever both keys are present and the original size alone is positive, so
a zero second operand yields a present ratio of 0 and the same instance
gives 50. -/
theorem c3_ratio_amended :
    (∀ (st : StatsSizes) (r : ℚ),
      (compute_ratios st).compression_ratio' = some r ↔
        ∃ o c, st.this_archive_original_size = some o ∧
          st.this_archive_compressed_size = some c ∧
          0 < extract_size_bytes o ∧ 0 < extract_size_bytes c ∧
          r = extract_size_bytes o / extract_size_bytes c) ∧
    (∀ (st : StatsSizes) (r : ℚ),
      (compute_ratios st).deduplication_ratio' = some r ↔
        ∃ o d, st.this_archive_original_size = some o ∧
          st.this_archive_deduplicated_size = some d ∧
          0 < extract_size_bytes o ∧ 0 < extract_size_bytes d ∧
          r = extract_size_bytes o / extract_size_bytes d) ∧
    (∀ (st : LegacyStatsSizes) (r : ℚ),
      (compute_ratios_legacy st).compression_ratio'' = some r ↔
        ∃ o c, st.original_size' = some o ∧ st.compressed_size' = some c ∧
          0 < o ∧ r = c / o * 100) ∧
    (∀ (st : LegacyStatsSizes) (r : ℚ),
      (compute_ratios_legacy st).deduplication_ratio'' = some r ↔
        ∃ o d, st.original_size' = some o ∧ st.deduplicated_size' = some d ∧
          0 < o ∧ r = d / o * 100) ∧
    extract_size_bytes "1.00 GB" = 1073741824 ∧
    extract_size_bytes "512.00 MB" = 536870912 ∧
    (compute_ratios
        ⟨some "1.00 GB", some "512.00 MB", some "0.00 B"⟩).compression_ratio' = some 2 ∧
    (compute_ratios
        ⟨some "1.00 GB", some "512.00 MB", some "0.00 B"⟩).deduplication_ratio' = none ∧
    (compute_ratios ⟨some "1.00 GB", none, some "0.00 B"⟩).compression_ratio' = none := by
  refine ⟨fun st r => ?_, fun st r => ?_, fun st r => ?_, fun st r => ?_,
    by decide, by decide, by decide, by decide, by decide⟩
  · exact ratio_guard_iff st.this_archive_original_size st.this_archive_compressed_size r
  · exact ratio_guard_iff st.this_archive_original_size st.this_archive_deduplicated_size r
  · exact legacy_guard_iff st.original_size' st.compressed_size' r
  · exact legacy_guard_iff st.original_size' st.deduplicated_size' r

/-- C3 witness: the two characterizations applied to concrete records with
original 2048 bytes and compressed 1024 bytes: the citadel extractor stores
2, the legacy one stores 50. -/
theorem c3_ratio_amended_witness :
    (compute_ratios ⟨some "2.00 KB", some "1.00 KB", none⟩).compression_ratio' = some 2 ∧
    (compute_ratios_legacy ⟨some 2048, some 1024, none⟩).compression_ratio'' = some 50 :=
  ⟨(c3_ratio_amended.1 ⟨some "2.00 KB", some "1.00 KB", none⟩ 2).mpr
    ⟨"2.00 KB", "1.00 KB", rfl, rfl, by decide, by decide, by
      rw [show extract_size_bytes "2.00 KB" = 2048 from by decide,
        show extract_size_bytes "1.00 KB" = 1024 from by decide]
      norm_num⟩,
   (c3_ratio_amended.2.2.1 ⟨some 2048, some 1024, none⟩ 50).mpr
    ⟨2048, 1024, rfl, rfl, by norm_num, by norm_num⟩⟩

/-! ## Claim C10 — JSON metadata round trip

The development below proves that `loads` inverts `dumps`.  The structure
is: digit-level facts, correctness of the integer rendering against
`Nat.digits`, a generic take/drop lemma for digit runs, the number parser's
round trip, the string-escape round trip, and finally the mutual value /
element-list / member-list round trip by induction on the parser fuel. -/

theorem digitChar_props {d : Nat} (h : d < 10) :
    (digitChar d).toNat = 48 + d ∧ (digitChar d).isDigit = true ∧
    jsonWs (digitChar d) = false ∧ pyWs (digitChar d) = false ∧
    digitChar d ≠ ']' ∧ digitChar d ≠ '}' ∧ digitChar d ≠ ',' ∧
    digitChar d ≠ '"' ∧ digitChar d ≠ '[' ∧ digitChar d ≠ '{' ∧
    digitChar d ≠ 'n' ∧ digitChar d ≠ 't' ∧ digitChar d ≠ 'f' ∧
    digitChar d ≠ '-' ∧ digitChar d ≠ '.' ∧ digitChar d ≠ 'e' ∧
    digitChar d ≠ 'E' := by
  interval_cases d <;> decide

theorem digitVal_digitChar {d : Nat} (h : d < 10) : digitVal (digitChar d) = d := by
  interval_cases d <;> decide

theorem digitChar_ne_zero_char {d : Nat} (h : d < 10) (hd : d ≠ 0) :
    digitChar d ≠ '0' := by
  interval_cases d <;> simp_all <;> decide

theorem natCharsAux_eq :
    ∀ (fuel n : Nat) (acc : List Char), n < fuel →
      natCharsAux fuel n acc =
        (if n = 0 then ['0'] else (Nat.digits 10 n).reverse.map digitChar) ++ acc
  | 0, n, _, h => absurd h (by omega)
  | fuel + 1, n, acc, h => by
    rw [natCharsAux]
    rcases Nat.lt_or_ge n 10 with h10 | h10
    · rw [if_pos h10]
      rcases Nat.eq_zero_or_pos n with rfl | hpos
      · simp
        decide
      · rw [if_neg (by omega)]
        rw [Nat.digits_def' (by omega : (1:Nat) < 10) hpos]
        rw [Nat.mod_eq_of_lt h10, Nat.div_eq_of_lt h10]
        simp
    · rw [if_neg (by omega)]
      have hrec : n / 10 < fuel := by
        have := Nat.div_lt_self (by omega : 0 < n) (by omega : 1 < 10)
        omega
      rw [natCharsAux_eq fuel (n / 10) _ hrec]
      rw [if_neg (show ¬ n / 10 = 0 by omega)]
      rw [if_neg (show ¬ n = 0 by omega)]
      rw [Nat.digits_def' (by omega : (1:Nat) < 10) (by omega : 0 < n)]
      simp

theorem natChars_eq (n : Nat) :
    natChars n = if n = 0 then ['0'] else (Nat.digits 10 n).reverse.map digitChar := by
  rw [natChars, natCharsAux_eq (n + 1) n [] (by omega)]
  simp

theorem decodeDigits_append_singleton (xs : List Char) (c : Char) :
    decodeDigits (xs ++ [c]) = decodeDigits xs * 10 + digitVal c := by
  simp [decodeDigits, List.foldl_append]

theorem decode_map_digits :
    ∀ (ds : List Nat), (∀ d ∈ ds, d < 10) →
      decodeDigits ((ds.map digitChar).reverse) = Nat.ofDigits 10 ds
  | [], _ => by simp [decodeDigits, Nat.ofDigits]
  | d :: rest, h => by
    simp only [List.map_cons, List.reverse_cons]
    rw [decodeDigits_append_singleton]
    rw [decode_map_digits rest (fun x hx => h x (List.mem_cons_of_mem _ hx))]
    rw [digitVal_digitChar (h d (List.mem_cons_self _ _))]
    rw [Nat.ofDigits_cons]
    omega

theorem decodeDigits_natChars (n : Nat) : decodeDigits (natChars n) = n := by
  rw [natChars_eq]
  rcases Nat.eq_zero_or_pos n with rfl | hpos
  · decide
  · rw [if_neg (by omega)]
    rw [List.map_reverse]
    rw [decode_map_digits _ (fun d hd => Nat.digits_lt_base (by omega) hd)]
    exact Nat.ofDigits_digits 10 n

theorem natChars_all_digits (n : Nat) : ∀ c ∈ natChars n, c.isDigit = true := by
  rw [natChars_eq]
  rcases Nat.eq_zero_or_pos n with rfl | hpos
  · intro c hc
    simp at hc
    rw [hc]
    decide
  · rw [if_neg (by omega)]
    intro c hc
    rw [List.mem_map] at hc
    obtain ⟨d, hd, rfl⟩ := hc
    rw [List.mem_reverse] at hd
    exact (digitChar_props (Nat.digits_lt_base (by omega) hd)).2.1

theorem natChars_ne_nil (n : Nat) : natChars n ≠ [] := by
  rw [natChars_eq]
  rcases Nat.eq_zero_or_pos n with rfl | hpos
  · simp
  · rw [if_neg (by omega)]
    simp [Nat.digits_ne_nil_iff_ne_zero, Nat.pos_iff_ne_zero.mp hpos]

theorem natChars_head_pos {n : Nat} (hn : n ≠ 0) :
    ∃ d t, natChars n = digitChar d :: t ∧ d < 10 ∧ d ≠ 0 := by
  rw [natChars_eq, if_neg hn]
  have hne : Nat.digits 10 n ≠ [] := Nat.digits_ne_nil_iff_ne_zero.mpr hn
  have hrne : (Nat.digits 10 n).reverse ≠ [] := by simpa using hne
  obtain ⟨d, t, hdt⟩ := List.exists_cons_of_ne_nil hrne
  refine ⟨d, t.map digitChar, by rw [hdt]; simp, ?_, ?_⟩
  · exact Nat.digits_lt_base (by omega)
      (List.mem_reverse.mp (hdt ▸ List.mem_cons_self _ _))
  · have hlast : (Nat.digits 10 n).getLast? = some d := by
      rw [← List.head?_reverse, hdt]
      rfl
    have := Nat.getLast_digit_ne_zero 10 hn
    rw [List.getLast?_eq_getLast _ hne] at hlast
    simpa [← Option.some_injective _ hlast] using this

theorem natChars_head (n : Nat) :
    ∃ d t, natChars n = digitChar d :: t ∧ d < 10 := by
  rcases Nat.eq_zero_or_pos n with rfl | hpos
  · exact ⟨0, [], by rw [natChars_eq]; rfl, by omega⟩
  · obtain ⟨d, t, hdt, hd10, _⟩ := natChars_head_pos (by omega : n ≠ 0)
    exact ⟨d, t, hdt, hd10⟩

theorem run_split {p : Char → Bool} :
    ∀ (l rest : List Char), (∀ c ∈ l, p c = true) →
      (∀ c, rest.head? = some c → p c = false) →
      (l ++ rest).takeWhile p = l ∧ (l ++ rest).dropWhile p = rest
  | [], rest, _, hr => by
    cases rest with
    | nil => simp
    | cons c t =>
        simp [List.takeWhile_cons, List.dropWhile_cons, hr c rfl]
  | c :: l', rest, hl, hr => by
    have hc : p c = true := hl c (List.mem_cons_self _ _)
    have ih := run_split l' rest (fun x hx => hl x (List.mem_cons_of_mem _ hx)) hr
    simp [List.takeWhile_cons, List.dropWhile_cons, hc, ih.1, ih.2]

theorem parseNum_intChars (i : Int) (rest : List Char)
    (hb : ∀ c, rest.head? = some c →
      c.isDigit = false ∧ c ≠ '.' ∧ c ≠ 'e' ∧ c ≠ 'E') :
    parseNum (intChars i ++ rest) = some (i, rest) := by
  have hff : floatFollow rest = false := by
    cases rest with
    | nil => rfl
    | cons c t =>
        obtain ⟨_, h2, h3, h4⟩ := hb c rfl
        simp [floatFollow, h2, h3, h4]
  have hrun := run_split (p := Char.isDigit) (natChars i.natAbs) rest
    (natChars_all_digits _) (fun c hc => (hb c hc).1)
  rcases lt_or_ge i 0 with hneg | hpos
  · rw [intChars, if_pos hneg, List.cons_append]
    obtain ⟨d, t, hdt, hd10, hd0⟩ := natChars_head_pos (show i.natAbs ≠ 0 by omega)
    simp only [parseNum, List.head?_cons, List.tail_cons, if_pos]
    rw [hrun.1, hrun.2]
    rw [if_neg (natChars_ne_nil _)]
    rw [if_neg ?hz]
    case hz =>
      rintro ⟨hlen, hhead0⟩
      rw [hdt] at hhead0
      simp only [List.head?_cons, Option.some.injEq] at hhead0
      exact digitChar_ne_zero_char hd10 hd0 hhead0
    rw [hff]
    simp only [Bool.false_eq_true, if_false, if_true]
    rw [decodeDigits_natChars]
    simp only [Option.some.injEq, Prod.mk.injEq]
    exact ⟨by omega, trivial⟩
  · rw [intChars, if_neg (by omega)]
    obtain ⟨d, t, hdt, hd10⟩ := natChars_head i.natAbs
    obtain ⟨_, _, _, _, _, _, _, _, _, _, _, _, _, hminus, _, _, _⟩ := digitChar_props hd10
    have hhead : (natChars i.natAbs ++ rest).head? = some (digitChar d) := by
      rw [hdt]
      rfl
    simp only [parseNum]
    rw [if_neg (show ¬ ((natChars i.natAbs ++ rest).head? = some '-') from by
      rw [hhead]; simp [hminus])]
    rw [hrun.1, hrun.2]
    rw [if_neg (natChars_ne_nil _)]
    rw [if_neg ?hz]
    case hz =>
      rintro ⟨hlen, hhead0⟩
      rcases Nat.eq_zero_or_pos i.natAbs with hz0 | hzpos
      · rw [hz0] at hlen
        rw [show natChars 0 = ['0'] from by rw [natChars_eq]; rfl] at hlen
        simp at hlen
      · obtain ⟨d', t', hdt', hd10', hd0'⟩ := natChars_head_pos (by omega : i.natAbs ≠ 0)
        rw [hdt'] at hhead0
        simp only [List.head?_cons, Option.some.injEq] at hhead0
        exact digitChar_ne_zero_char hd10' hd0' hhead0
    rw [hff]
    simp only [Bool.false_eq_true, if_false]
    rw [decodeDigits_natChars]
    simp only [Option.some.injEq, Prod.mk.injEq]
    exact ⟨by omega, trivial⟩


theorem hexDigit_hexVal {d : Nat} (h : d < 16) : hexVal? (hexDigit d) = some d := by
  interval_cases d <;> decide

theorem char_toNat_valid (c : Char) :
    c.toNat < 0xD800 ∨ (0xDFFF < c.toNat ∧ c.toNat < 0x110000) :=
  c.valid

theorem hex4_spec (n : Nat) :
    ∃ h1 h2 h3 h4, hex4 n = [h1, h2, h3, h4] ∧
      hexVal? h1 = some (n / 4096 % 16) ∧ hexVal? h2 = some (n / 256 % 16) ∧
      hexVal? h3 = some (n / 16 % 16) ∧ hexVal? h4 = some (n % 16) :=
  ⟨_, _, _, _, rfl, hexDigit_hexVal (by omega), hexDigit_hexVal (by omega),
    hexDigit_hexVal (by omega), hexDigit_hexVal (by omega)⟩

theorem parseStrBody_u_single (f n : Nat) (rest3 l r : List Char)
    (hlt : n < 0x10000)
    (hn1 : ¬ (0xD800 ≤ n ∧ n < 0xDC00)) (hn2 : ¬ (0xDC00 ≤ n ∧ n < 0xE000))
    (hs : parseStrBody f rest3 = some (l, r)) (h1 h2 h3 h4 : Char)
    (ha : hexVal? h1 = some (n / 4096 % 16)) (hb : hexVal? h2 = some (n / 256 % 16))
    (hg : hexVal? h3 = some (n / 16 % 16)) (hd : hexVal? h4 = some (n % 16)) :
    parseStrBody (f + 1) ('\\' :: 'u' :: h1 :: h2 :: h3 :: h4 :: rest3) =
      some (Char.ofNat n :: l, r) := by
  simp only [parseStrBody, ha, hb, hg, hd]
  rw [show n / 4096 % 16 * 4096 + n / 256 % 16 * 256 + n / 16 % 16 * 16 + n % 16 = n
    from by omega]
  rw [if_neg hn1, if_neg hn2, hs]
  simp

theorem parseStrBody_u_pair (f n m : Nat) (rest4 l r : List Char)
    (hn : 0xD800 ≤ n ∧ n < 0xDC00) (hm : 0xDC00 ≤ m ∧ m < 0xE000)
    (hs : parseStrBody f rest4 = some (l, r)) (g1 g2 g3 g4 k1 k2 k3 k4 : Char)
    (hg1 : hexVal? g1 = some (n / 4096 % 16)) (hg2 : hexVal? g2 = some (n / 256 % 16))
    (hg3 : hexVal? g3 = some (n / 16 % 16)) (hg4 : hexVal? g4 = some (n % 16))
    (hk1 : hexVal? k1 = some (m / 4096 % 16)) (hk2 : hexVal? k2 = some (m / 256 % 16))
    (hk3 : hexVal? k3 = some (m / 16 % 16)) (hk4 : hexVal? k4 = some (m % 16)) :
    parseStrBody (f + 1)
        ('\\' :: 'u' :: g1 :: g2 :: g3 :: g4 :: '\\' :: 'u' :: k1 :: k2 :: k3 :: k4 :: rest4) =
      some (Char.ofNat (0x10000 + (n - 0xD800) * 0x400 + (m - 0xDC00)) :: l, r) := by
  simp only [parseStrBody, hg1, hg2, hg3, hg4, hk1, hk2, hk3, hk4]
  rw [show n / 4096 % 16 * 4096 + n / 256 % 16 * 256 + n / 16 % 16 * 16 + n % 16 = n
    from by omega]
  rw [if_pos hn]
  rw [show m / 4096 % 16 * 4096 + m / 256 % 16 * 256 + m / 16 % 16 * 16 + m % 16 = m
    from by omega]
  rw [if_pos hm, hs]
  simp

theorem parseStrBody_escStep (c : Char) (f : Nat) (suffix l r : List Char)
    (hs : parseStrBody f suffix = some (l, r)) :
    parseStrBody (f + 1) (escChar c ++ suffix) = some (c :: l, r) := by
  have hvalid := char_toNat_valid c
  unfold escChar
  split_ifs with h1 h2 h3 h4 h5 h6 h7 h8 h9
  · subst h1
    simp [parseStrBody, escLookup, hs]
  · subst h2
    simp [parseStrBody, escLookup, hs]
  · subst h3
    simp [parseStrBody, escLookup, hs]
  · subst h4
    simp [parseStrBody, escLookup, hs]
  · subst h5
    simp [parseStrBody, escLookup, hs]
  · subst h6
    simp [parseStrBody, escLookup, hs]
  · subst h7
    simp [parseStrBody, escLookup, hs]
  · simp [parseStrBody, h1, h2, h8.1, hs]
  · obtain ⟨a, b, g, d, hx, ha, hb, hg, hd⟩ := hex4_spec c.toNat
    rw [hx]
    simp only [List.cons_append, List.nil_append]
    rw [parseStrBody_u_single f c.toNat suffix l r h9 (by omega) (by omega) hs
      a b g d ha hb hg hd]
    rw [Char.ofNat_toNat]
  · obtain ⟨a, b, g, d, hx, ha, hb, hg, hd⟩ :=
      hex4_spec (0xD800 + (c.toNat - 0x10000) / 0x400)
    obtain ⟨a2, b2, g2, d2, hx2, ha2, hb2, hg2, hd2⟩ :=
      hex4_spec (0xDC00 + (c.toNat - 0x10000) % 0x400)
    rw [hx, hx2]
    simp only [List.cons_append, List.nil_append, List.append_assoc]
    rw [parseStrBody_u_pair f _ _ suffix l r (by omega) (by omega) hs
      a b g d a2 b2 g2 d2 ha hb hg hd ha2 hb2 hg2 hd2]
    rw [show 0x10000 + (0xD800 + (c.toNat - 0x10000) / 0x400 - 0xD800) * 0x400 +
        (0xDC00 + (c.toNat - 0x10000) % 0x400 - 0xDC00) = c.toNat from by omega]
    rw [Char.ofNat_toNat]

theorem escChar_length_pos (c : Char) : 1 ≤ (escChar c).length := by
  unfold escChar
  split_ifs <;> simp [hex4]

theorem escChars_length_ge : ∀ L : List Char, L.length ≤ (escChars L).length
  | [] => Nat.le_refl _
  | c :: L => by
    have h1 := escChar_length_pos c
    have h2 := escChars_length_ge L
    simp only [escChars, List.length_cons, List.length_append]
    omega

theorem parseStrBody_escChars :
    ∀ (L rest : List Char) (fuel : Nat), L.length < fuel →
      parseStrBody fuel (escChars L ++ '"' :: rest) = some (L, rest)
  | [], rest, fuel, h => by
    obtain ⟨f, rfl⟩ : ∃ f, fuel = f + 1 := ⟨fuel - 1, by omega⟩
    simp [escChars, parseStrBody]
  | c :: L', rest, fuel, h => by
    obtain ⟨f, rfl⟩ : ∃ f, fuel = f + 1 := ⟨fuel - 1, by omega⟩
    show parseStrBody (f + 1) (escChar c ++ escChars L' ++ '"' :: rest) = _
    rw [List.append_assoc]
    exact parseStrBody_escStep c f _ _ _
      (parseStrBody_escChars L' rest f (by simp at h; omega))

/-- The string parse performed by `parseVal` / `parseMembers`, which uses
the input length as fuel, succeeds on every escaped string body. -/
theorem parseStrBody_escChars_len (L rest : List Char) :
    parseStrBody (escChars L ++ '"' :: rest).length (escChars L ++ '"' :: rest) =
      some (L, rest) := by
  apply parseStrBody_escChars
  have := escChars_length_ge L
  simp only [List.length_append, List.length_cons]
  omega

theorem skipWs_cons_of_not {c : Char} {l : List Char} (h : jsonWs c = false) :
    skipWs (c :: l) = c :: l := by
  simp [skipWs, List.dropWhile_cons, h]

theorem skipWs_space (l : List Char) : skipWs (' ' :: l) = skipWs l := by
  simp [skipWs, List.dropWhile_cons, show jsonWs ' ' = true from rfl]

theorem intChars_head (i : Int) :
    ∃ c t, intChars i = c :: t ∧ jsonWs c = false ∧ c ≠ ']' ∧ c ≠ '}' ∧ c ≠ ',' ∧
      c ≠ '"' ∧ c ≠ '[' ∧ c ≠ '{' ∧ c ≠ 'n' ∧ c ≠ 't' ∧ c ≠ 'f' := by
  rcases lt_or_ge i 0 with hneg | hpos
  · refine ⟨'-', natChars i.natAbs, ?_, by decide, by decide, by decide, by decide,
      by decide, by decide, by decide, by decide, by decide, by decide⟩
    rw [intChars, if_pos hneg]
  · obtain ⟨d, t, hdt, hd10⟩ := natChars_head i.natAbs
    obtain ⟨_, _, hjws, _, hrb, hcb, hcm, hq, hlb, hlc, hn, ht, hf, _, _, _, _⟩ :=
      digitChar_props hd10
    exact ⟨digitChar d, t, by rw [intChars, if_neg (by omega)]; exact hdt,
      hjws, hrb, hcb, hcm, hq, hlb, hlc, hn, ht, hf⟩

theorem dumpL_one (x : Json) : dumpL [x] = dumpV x := by
  simp [dumpL]

theorem dumpL_cons2 (x y : Json) (ys : List Json) :
    dumpL (x :: y :: ys) = dumpV x ++ ',' :: ' ' :: dumpL (y :: ys) := by
  simp [dumpL]

theorem dumpO_one (k : String) (v : Json) :
    dumpO [(k, v)] = '"' :: (escChars k.data ++ '"' :: ':' :: ' ' :: dumpV v) := by
  simp [dumpO]

theorem dumpO_cons2 (k : String) (v : Json) (m : String × Json)
    (ms : List (String × Json)) :
    dumpO ((k, v) :: m :: ms) =
      '"' :: (escChars k.data ++ '"' :: ':' :: ' ' :: dumpV v) ++
        ',' :: ' ' :: dumpO (m :: ms) := by
  simp [dumpO]

theorem dumpV_head (j : Json) :
    ∃ c t, dumpV j = c :: t ∧ jsonWs c = false ∧ c ≠ ']' ∧ c ≠ '}' ∧ c ≠ ',' := by
  cases j with
  | null =>
      exact ⟨'n', ['u', 'l', 'l'], by simp [dumpV], by decide, by decide, by decide,
        by decide⟩
  | boolean b =>
      cases b
      · exact ⟨'f', ['a', 'l', 's', 'e'], by simp [dumpV], by decide, by decide,
          by decide, by decide⟩
      · exact ⟨'t', ['r', 'u', 'e'], by simp [dumpV], by decide, by decide,
          by decide, by decide⟩
  | num i =>
      obtain ⟨c, t, hct, hws, hrb, hcb, hcm, _⟩ := intChars_head i
      exact ⟨c, t, by rw [show dumpV (.num i) = intChars i from by simp [dumpV], hct],
        hws, hrb, hcb, hcm⟩
  | str s =>
      exact ⟨'"', escChars s.data ++ ['"'], by simp [dumpV], by decide, by decide,
        by decide, by decide⟩
  | arr xs =>
      exact ⟨'[', dumpL xs ++ [']'], by simp [dumpV], by decide, by decide,
        by decide, by decide⟩
  | obj ms =>
      exact ⟨'{', dumpO ms ++ ['}'], by simp [dumpV], by decide, by decide,
        by decide, by decide⟩

theorem sizeJ_pos (j : Json) : 1 ≤ sizeJ j := by
  cases j <;> simp [sizeJ]

theorem boundary_cons {c0 : Char}
    (h : c0.isDigit = false ∧ c0 ≠ '.' ∧ c0 ≠ 'e' ∧ c0 ≠ 'E') (l : List Char) :
    ∀ c, (c0 :: l).head? = some c →
      c.isDigit = false ∧ c ≠ '.' ∧ c ≠ 'e' ∧ c ≠ 'E' := by
  intro c hc
  simp only [List.head?_cons, Option.some.injEq] at hc
  exact hc ▸ h

theorem dumpL_shape (z : Json) (zs : List Json) (B : List Char) :
    ∃ c t, dumpL (z :: zs) ++ B = c :: t ∧ jsonWs c = false ∧ c ≠ ']' ∧
      c ≠ '}' ∧ c ≠ ',' := by
  obtain ⟨c, t, hct, h1, h2, h3, h4⟩ := dumpV_head z
  cases zs with
  | nil =>
      exact ⟨c, t ++ B, by rw [dumpL_one, hct]; simp, h1, h2, h3, h4⟩
  | cons w ws =>
      exact ⟨c, t ++ (',' :: ' ' :: dumpL (w :: ws)) ++ B,
        by rw [dumpL_cons2, hct]; simp, h1, h2, h3, h4⟩

theorem dumpO_shape (k : String) (v : Json) (ms : List (String × Json))
    (B : List Char) :
    ∃ t, dumpO ((k, v) :: ms) ++ B = '"' :: t := by
  cases ms with
  | nil => exact ⟨(escChars k.data ++ '"' :: ':' :: ' ' :: dumpV v) ++ B,
      by rw [dumpO_one]; simp⟩
  | cons m ms' =>
      exact ⟨(escChars k.data ++ '"' :: ':' :: ' ' :: dumpV v) ++
          (',' :: ' ' :: dumpO (m :: ms')) ++ B,
        by rw [dumpO_cons2]; simp⟩

theorem skipWs_dumpL (z : Json) (zs : List Json) (B : List Char) :
    skipWs (dumpL (z :: zs) ++ B) = dumpL (z :: zs) ++ B := by
  obtain ⟨c, t, hct, hws, _⟩ := dumpL_shape z zs B
  rw [hct, skipWs_cons_of_not hws]

theorem parseVal_quote (n : Nat) (X : List Char) :
    parseVal (n + 1) ('"' :: X) = strBranch (parseStrBody X.length X) := rfl

theorem parseVal_lbracket (n : Nat) (X : List Char) :
    parseVal (n + 1) ('[' :: X) =
      (if (skipWs X).head? = some ']' then some (.arr [], (skipWs X).tail)
       else arrBranch (parseElems n (skipWs X))) := rfl

theorem parseVal_lbrace (n : Nat) (X : List Char) :
    parseVal (n + 1) ('{' :: X) =
      (if (skipWs X).head? = some '}' then some (.obj [], (skipWs X).tail)
       else objBranch (parseMembers n (skipWs X))) := rfl

theorem parseVal_minus (n : Nat) (X : List Char) :
    parseVal (n + 1) ('-' :: X) = numBranch (parseNum ('-' :: X)) := rfl

theorem parseVal_digit (n d : Nat) (hd : d < 10) (X : List Char) :
    parseVal (n + 1) (digitChar d :: X) =
      numBranch (parseNum (digitChar d :: X)) := by
  interval_cases d <;> rfl

theorem parseElems_step (n : Nat) (cs : List Char) :
    parseElems (n + 1) cs =
      (match parseVal n cs with
       | some (v, r1) =>
           if (skipWs r1).head? = some ',' then
             consBranch v (parseElems n (skipWs (skipWs r1).tail))
           else if (skipWs r1).head? = some ']' then some ([v], (skipWs r1).tail)
           else none
       | none => none) := rfl

theorem parseMembers_step (n : Nat) (r0 : List Char) :
    parseMembers (n + 1) ('"' :: r0) =
      (match parseStrBody r0.length r0 with
       | some (k, r1) =>
           if (skipWs r1).head? = some ':' then
             (match parseVal n (skipWs (skipWs r1).tail) with
              | some (v, r2) =>
                  if (skipWs r2).head? = some ',' then
                    memConsBranch k v (parseMembers n (skipWs (skipWs r2).tail))
                  else if (skipWs r2).head? = some '}' then
                    some ([(String.mk k, v)], (skipWs r2).tail)
                  else none
              | none => none)
           else none
       | none => none) := rfl

theorem parse_roundtrip : ∀ n : Nat,
    (∀ (j : Json) (rest : List Char), sizeJ j ≤ n →
      (∀ c, rest.head? = some c →
        c.isDigit = false ∧ c ≠ '.' ∧ c ≠ 'e' ∧ c ≠ 'E') →
      parseVal n (dumpV j ++ rest) = some (j, rest)) ∧
    (∀ (x : Json) (xs : List Json) (rest : List Char), sizeL (x :: xs) ≤ n →
      parseElems n (dumpL (x :: xs) ++ ']' :: rest) = some (x :: xs, rest)) ∧
    (∀ (k : String) (v : Json) (ms : List (String × Json)) (rest : List Char),
      sizeO ((k, v) :: ms) ≤ n →
      parseMembers n (dumpO ((k, v) :: ms) ++ '}' :: rest) =
        some ((k, v) :: ms, rest)) := by
  intro n
  induction n with
  | zero =>
      refine ⟨?_, ?_, ?_⟩
      · intro j rest hsz _
        have := sizeJ_pos j
        omega
      · intro x xs rest hsz
        simp only [sizeL] at hsz
        omega
      · intro k v ms rest hsz
        simp only [sizeO] at hsz
        omega
  | succ n ih =>
      obtain ⟨ihV, ihE, ihM⟩ := ih
      refine ⟨?_, ?_, ?_⟩
      · intro j rest hsz hb
        cases j with
        | null => rfl
        | boolean b => cases b <;> rfl
        | num i =>
            rcases lt_or_ge i 0 with hneg | hpos
            · have hi : intChars i = '-' :: natChars i.natAbs := by
                rw [intChars, if_pos hneg]
              have hd : dumpV (Json.num i) = '-' :: natChars i.natAbs := by
                rw [show dumpV (Json.num i) = intChars i from by simp [dumpV], hi]
              rw [hd,
                show ('-' :: natChars i.natAbs) ++ rest
                  = '-' :: (natChars i.natAbs ++ rest) from rfl]
              rw [parseVal_minus]
              rw [show ('-' : Char) :: (natChars i.natAbs ++ rest)
                  = ('-' :: natChars i.natAbs) ++ rest from rfl, ← hi]
              rw [parseNum_intChars i rest hb]
              rfl
            · have hi : intChars i = natChars i.natAbs := by
                rw [intChars, if_neg (by omega)]
              have hd : dumpV (Json.num i) = natChars i.natAbs := by
                rw [show dumpV (Json.num i) = intChars i from by simp [dumpV], hi]
              obtain ⟨d, t, hdt, hd10⟩ := natChars_head i.natAbs
              rw [hd, hdt,
                show (digitChar d :: t) ++ rest = digitChar d :: (t ++ rest) from rfl]
              rw [parseVal_digit n d hd10]
              rw [show digitChar d :: (t ++ rest) = (digitChar d :: t) ++ rest from rfl,
                ← hdt, ← hi]
              rw [parseNum_intChars i rest hb]
              rfl
        | str s =>
            rw [show dumpV (Json.str s) = '"' :: (escChars s.data ++ ['"']) from by
              simp [dumpV]]
            rw [show ('"' :: (escChars s.data ++ ['"'])) ++ rest
                = '"' :: (escChars s.data ++ '"' :: rest) from by simp]
            rw [parseVal_quote]
            rw [parseStrBody_escChars_len s.data rest]
            rfl
        | arr xs =>
            cases xs with
            | nil => rfl
            | cons z zs =>
                rw [show dumpV (Json.arr (z :: zs))
                    = '[' :: (dumpL (z :: zs) ++ [']']) from by simp [dumpV]]
                rw [show ('[' :: (dumpL (z :: zs) ++ [']'])) ++ rest
                    = '[' :: (dumpL (z :: zs) ++ ']' :: rest) from by simp]
                rw [parseVal_lbracket]
                obtain ⟨c, t, hct, hws, hrb, _, _⟩ := dumpL_shape z zs (']' :: rest)
                rw [hct, skipWs_cons_of_not hws]
                rw [if_neg (show ¬ ((c :: t).head? = some ']') from by
                  simp only [List.head?_cons, Option.some.injEq]; exact hrb)]
                rw [← hct]
                rw [ihE z zs rest (by
                  have h := hsz
                  simp only [sizeJ] at h
                  omega)]
                rfl
        | obj ms =>
            cases ms with
            | nil => rfl
            | cons m ms' =>
                obtain ⟨k, v⟩ := m
                rw [show dumpV (Json.obj ((k, v) :: ms'))
                    = '{' :: (dumpO ((k, v) :: ms') ++ ['}']) from by simp [dumpV]]
                rw [show ('{' :: (dumpO ((k, v) :: ms') ++ ['}'])) ++ rest
                    = '{' :: (dumpO ((k, v) :: ms') ++ '}' :: rest) from by simp]
                rw [parseVal_lbrace]
                obtain ⟨t2, ht2⟩ := dumpO_shape k v ms' ('}' :: rest)
                rw [ht2, skipWs_cons_of_not (show jsonWs '"' = false from by decide)]
                rw [if_neg (show ¬ (('"' :: t2).head? = some '}') from by
                  simp only [List.head?_cons, Option.some.injEq]; decide)]
                rw [← ht2]
                rw [ihM k v ms' rest (by
                  have h := hsz
                  simp only [sizeJ] at h
                  omega)]
                rfl
      · intro x xs rest hsz
        cases xs with
        | nil =>
            rw [show dumpL [x] ++ ']' :: rest = dumpV x ++ ']' :: rest from by
              rw [dumpL_one]]
            rw [parseElems_step]
            rw [ihV x (']' :: rest) (by
                have h := hsz
                simp only [sizeL] at h
                omega)
              (boundary_cons (by decide) rest)]
            rfl
        | cons y ys =>
            rw [show dumpL (x :: y :: ys) ++ ']' :: rest
                = dumpV x ++ (',' :: (' ' :: (dumpL (y :: ys) ++ ']' :: rest))) from by
              rw [dumpL_cons2]; simp]
            rw [parseElems_step]
            rw [ihV x (',' :: (' ' :: (dumpL (y :: ys) ++ ']' :: rest)))
              (by
                have h := hsz
                simp only [sizeL] at h
                omega)
              (boundary_cons (by decide) _)]
            simp only []
            rw [skipWs_cons_of_not (show jsonWs ',' = false from by decide)]
            rw [if_pos (show ((',' :: (' ' :: (dumpL (y :: ys) ++ ']' :: rest))).head?
                = some ',') from rfl)]
            rw [List.tail_cons, skipWs_space]
            obtain ⟨c, t, hct, hws, _⟩ := dumpL_shape y ys (']' :: rest)
            rw [hct, skipWs_cons_of_not hws, ← hct]
            rw [ihE y ys rest (by
              have h := hsz
              simp only [sizeL] at h ⊢
              omega)]
            rfl
      · intro k v ms rest hsz
        cases ms with
        | nil =>
            rw [dumpO_one]
            rw [show ('"' :: (escChars k.data ++ '"' :: ':' :: ' ' :: dumpV v)) ++
                  '}' :: rest
                = '"' :: (escChars k.data ++
                    '"' :: (':' :: (' ' :: (dumpV v ++ '}' :: rest)))) from by simp]
            rw [parseMembers_step]
            rw [parseStrBody_escChars_len k.data
              (':' :: (' ' :: (dumpV v ++ '}' :: rest)))]
            simp only []
            rw [skipWs_cons_of_not (show jsonWs ':' = false from by decide)]
            rw [if_pos (show ((':' :: (' ' :: (dumpV v ++ '}' :: rest))).head?
                = some ':') from rfl)]
            rw [List.tail_cons, skipWs_space]
            obtain ⟨c, t, hct, hws, _⟩ := dumpV_head v
            rw [hct, List.cons_append, skipWs_cons_of_not hws, ← List.cons_append,
              ← hct]
            rw [ihV v ('}' :: rest) (by
                have h := hsz
                simp only [sizeO] at h
                omega)
              (boundary_cons (by decide) rest)]
            rfl
        | cons m ms' =>
            obtain ⟨k2, v2⟩ := m
            rw [dumpO_cons2]
            rw [show (('"' :: (escChars k.data ++ '"' :: ':' :: ' ' :: dumpV v)) ++
                  ',' :: ' ' :: dumpO ((k2, v2) :: ms')) ++ '}' :: rest
                = '"' :: (escChars k.data ++
                    '"' :: (':' :: (' ' :: (dumpV v ++
                      ',' :: (' ' :: (dumpO ((k2, v2) :: ms') ++ '}' :: rest)))))) from by
              simp]
            rw [parseMembers_step]
            rw [parseStrBody_escChars_len k.data
              (':' :: (' ' :: (dumpV v ++
                ',' :: (' ' :: (dumpO ((k2, v2) :: ms') ++ '}' :: rest)))))]
            simp only []
            rw [skipWs_cons_of_not (show jsonWs ':' = false from by decide)]
            rw [if_pos (show ((':' :: (' ' :: (dumpV v ++
                ',' :: (' ' :: (dumpO ((k2, v2) :: ms') ++ '}' :: rest))))).head?
                = some ':') from rfl)]
            rw [List.tail_cons, skipWs_space]
            obtain ⟨c, t, hct, hws, _⟩ := dumpV_head v
            rw [hct, List.cons_append, skipWs_cons_of_not hws, ← List.cons_append,
              ← hct]
            rw [ihV v (',' :: (' ' :: (dumpO ((k2, v2) :: ms') ++ '}' :: rest)))
              (by
                have h := hsz
                simp only [sizeO] at h
                omega)
              (boundary_cons (by decide) _)]
            simp only []
            rw [skipWs_cons_of_not (show jsonWs ',' = false from by decide)]
            rw [if_pos (show ((',' :: (' ' :: (dumpO ((k2, v2) :: ms') ++
                '}' :: rest))).head? = some ',') from rfl)]
            rw [List.tail_cons, skipWs_space]
            obtain ⟨t2, ht2⟩ := dumpO_shape k2 v2 ms' ('}' :: rest)
            rw [ht2, skipWs_cons_of_not (show jsonWs '"' = false from by decide),
              ← ht2]
            rw [ihM k2 v2 ms' rest (by
              have h := hsz
              simp only [sizeO] at h ⊢
              omega)]
            rfl

end Citadel

namespace Citadel

theorem sizes_le : ∀ k : Nat,
    (∀ j : Json, sizeJ j ≤ k → sizeJ j ≤ (dumpV j).length) ∧
    (∀ xs : List Json, sizeL xs ≤ k → sizeL xs ≤ (dumpL xs).length + 1) ∧
    (∀ ms : List (String × Json), sizeO ms ≤ k →
      sizeO ms ≤ (dumpO ms).length + 1) := by
  intro k
  induction k with
  | zero =>
      refine ⟨?_, ?_, ?_⟩
      · intro j hsz
        have := sizeJ_pos j
        omega
      · intro xs hsz
        cases xs with
        | nil => simp [sizeL]
        | cons x xs' => simp only [sizeL] at hsz; omega
      · intro ms hsz
        cases ms with
        | nil => simp [sizeO]
        | cons m ms' =>
            obtain ⟨k', v'⟩ := m
            simp only [sizeO] at hsz
            omega
  | succ k ih =>
      obtain ⟨ihJ, ihL, ihO⟩ := ih
      refine ⟨?_, ?_, ?_⟩
      · intro j hsz
        cases j with
        | null => simp [sizeJ, dumpV]
        | boolean b => cases b <;> simp [sizeJ, dumpV]
        | num i =>
            obtain ⟨c, t, hct, _⟩ := intChars_head i
            simp only [sizeJ, show dumpV (Json.num i) = intChars i from by
              simp [dumpV], hct, List.length_cons]
            omega
        | str s => simp [sizeJ, dumpV]
        | arr xs =>
            have h1 : sizeL xs ≤ k := by simp only [sizeJ] at hsz; omega
            have h2 := ihL xs h1
            simp only [sizeJ, show dumpV (Json.arr xs)
              = '[' :: (dumpL xs ++ [']']) from by simp [dumpV]]
            simp only [List.length_cons, List.length_append, List.length_cons,
              List.length_nil]
            omega
        | obj ms =>
            have h1 : sizeO ms ≤ k := by simp only [sizeJ] at hsz; omega
            have h2 := ihO ms h1
            simp only [sizeJ, show dumpV (Json.obj ms)
              = '{' :: (dumpO ms ++ ['}']) from by simp [dumpV]]
            simp only [List.length_cons, List.length_append, List.length_nil]
            omega
      · intro xs hsz
        cases xs with
        | nil => simp [sizeL]
        | cons x xs' =>
            have hx : sizeJ x ≤ k := by simp only [sizeL] at hsz; omega
            have h1 := ihJ x hx
            cases xs' with
            | nil =>
                simp only [sizeL, dumpL_one]
                omega
            | cons y ys =>
                have hy : sizeL (y :: ys) ≤ k := by
                  simp only [sizeL] at hsz ⊢; omega
                have h2 := ihL (y :: ys) hy
                simp only [sizeL, dumpL_cons2, List.length_append,
                  List.length_cons] at h2 ⊢
                omega
      · intro ms hsz
        cases ms with
        | nil => simp [sizeO]
        | cons m ms' =>
            obtain ⟨km, vm⟩ := m
            have hv : sizeJ vm ≤ k := by simp only [sizeO] at hsz; omega
            have h1 := ihJ vm hv
            cases ms' with
            | nil =>
                simp only [sizeO, dumpO_one, List.length_cons, List.length_append,
                  List.length_cons]
                omega
            | cons m2 ms2 =>
                have hm : sizeO (m2 :: ms2) ≤ k := by
                  obtain ⟨k2, v2⟩ := m2
                  simp only [sizeO] at hsz ⊢; omega
                have h2 := ihO (m2 :: ms2) hm
                simp only [sizeO, dumpO_cons2, List.length_append,
                  List.length_cons] at h2 ⊢
                omega

theorem loads_dumps (j : Json) : loads (String.mk (dumpV j)) = some j := by
  have hsz : sizeJ j ≤ (dumpV j).length + 1 := by
    have := (sizes_le (sizeJ j)).1 j le_rfl
    omega
  have hV := (parse_roundtrip ((dumpV j).length + 1)).1 j [] hsz
    (by intro c hc; simp at hc)
  rw [List.append_nil] at hV
  simp only [loads]
  rw [hV]
  rfl

/-- C10: metadata round-trip and totality.  Serializing any dictionary with
`set_metadata` and reading it back with `get_metadata` returns the same
dictionary, and `get_metadata` is a total function (the model of "never
raises") that returns the empty dictionary when the stored column is null,
empty, or not valid JSON. -/
theorem c10_metadata_roundtrip :
    (∀ d : List (String × Json), get_metadata (set_metadata d) = Json.obj d) ∧
    get_metadata none = Json.obj [] ∧
    (∀ s : String, loads s = none → get_metadata (some s) = Json.obj []) := by
  refine ⟨?_, rfl, ?_⟩
  · intro d
    simp only [set_metadata, get_metadata]
    obtain ⟨c, t, hct, _⟩ := dumpV_head (Json.obj d)
    rw [if_neg (show ¬ (String.mk (dumpV (Json.obj d)) = "") from by
      intro h
      rw [String.ext_iff] at h
      simp only at h
      rw [hct] at h
      simp at h)]
    rw [loads_dumps (Json.obj d)]
    rfl
  · intro s hs
    simp only [get_metadata]
    by_cases he : s = ""
    · rw [if_pos he]
    · rw [if_neg he, hs]
      rfl

/-- C10 witness: the round trip evaluated on a concrete one-key dictionary,
and a concrete non-JSON column value mapped to the empty dictionary. -/
theorem c10_metadata_roundtrip_witness :
    get_metadata (set_metadata [("k", Json.num 7)]) =
      Json.obj [("k", Json.num 7)] ∧
    get_metadata none = Json.obj [] ∧
    loads "not json" = none ∧ get_metadata (some "not json") = Json.obj [] :=
  ⟨c10_metadata_roundtrip.1 [("k", Json.num 7)], c10_metadata_roundtrip.2.1, rfl,
    c10_metadata_roundtrip.2.2 "not json" rfl⟩

/-- C9 witness: the tagging theorem evaluated on a fatal stderr line and on
a plain stdout line. -/
theorem c9_read_stream_tagging_witness :
    read_stream_line "fatal: disk\n" true =
      (if severity_markers "fatal: disk\n" then "[ERROR] " else "[WARN] ") ++
        pyRstrip "fatal: disk\n" ∧
    read_stream_line "progress 5\n" false = pyRstrip "progress 5\n" :=
  ⟨((c9_read_stream_tagging "fatal: disk\n").1 (by decide)).1,
   (c9_read_stream_tagging "progress 5\n").2⟩

end Citadel
